import Mathlib

set_option maxHeartbeats 2000000
set_option maxRecDepth 4000

/-!
Shallow embedding of the code-graph extractor
(`src/tools/code_graph_extractor/extractor.py`).

Strings are modelled as `List Char` (`Str`); Python's regular-expression
patterns are transcribed as hand-rolled matchers that reproduce the
patterns' matching behaviour on ASCII text (each matcher documents the
pattern it implements).  The md5 hex digest is a library primitive and is
passed as an explicit function parameter `md5hex`; no claim below depends
on its value.  Edge confidences (Python floats 1.0 / 0.8) are modelled as
rationals, since the code only constructs and compares them.
-/

abbrev Str := List Char

/-- Python `\s` over ASCII: space, tab, newline, carriage return, vertical
tab, form feed. -/
def isSpaceCh (c : Char) : Bool :=
  c == ' ' || c == '\t' || c == '\n' || c == '\r' || c == '\x0b' || c == '\x0c'

/-- Python `\w` over ASCII: letters, digits, underscore. -/
def isWordCh (c : Char) : Bool :=
  c.isAlphanum || c == '_'

def countNl (s : Str) : Nat :=
  (s.filter (fun c => c == '\n')).length

/-- `content[:pos].count('\n') + 1`, the 1-indexed line of a match start. -/
def lineOfPos (content : Str) (pos : Nat) : Nat :=
  countNl (content.take pos) + 1

/-- Python `str.split(sep)` for a single-character separator. -/
def splitOnCh (sep : Char) : Str → List Str
  | [] => [[]]
  | c :: cs =>
    if c == sep then [] :: splitOnCh sep cs
    else
      match splitOnCh sep cs with
      | [] => [[c]]
      | l :: ls => (c :: l) :: ls

/-- Python `str.strip()`: remove leading and trailing whitespace. -/
def stripStr (s : Str) : Str :=
  ((s.dropWhile isSpaceCh).reverse.dropWhile isSpaceCh).reverse

/-- Python `str.lower()` over ASCII. -/
def toLowerStr (s : Str) : Str :=
  s.map Char.toLower

/-- `os.path.basename` with `/` as separator. -/
def basename (p : Str) : Str :=
  (splitOnCh '/' p).getLastD []

/-- The extension part of `os.path.splitext`: the suffix of the basename
from its last dot (inclusive), where leading dots of the basename do not
start an extension. -/
def splitextExt (p : Str) : Str :=
  let b := basename p
  let core := b.dropWhile (fun c => c == '.')
  if core.any (fun c => c == '.') then
    '.' :: (core.reverse.takeWhile (fun c => c != '.')).reverse
  else
    []

/-- Python `needle in haystack` (substring containment). -/
def containsSub (needle hay : Str) : Bool :=
  (List.range (hay.length + 1)).any (fun i => (hay.drop i).take needle.length == needle)

/-- Python `str.startswith`. -/
def startsWithStr (pre s : Str) : Bool :=
  s.take pre.length == pre

/-- Python `str.endswith`. -/
def endsWithStr (suf s : Str) : Bool :=
  s.drop (s.length - suf.length) == suf

def alookup (k : Str) : List (Str × Str) → Option Str
  | [] => none
  | (k', v) :: rest => if k = k' then some v else alookup k rest

-- =========================================================================
-- Data model (`CodeNode`, `CodeEdge`, `ExtractionResult`)
-- =========================================================================

structure CodeNode where
  id : Str
  kind : Str
  name : Str
  file_path : Str
  line_start : Nat := 0
  line_end : Nat := 0
  signature : Option Str := none
  language : Option Str := none
  visibility : Option Str := none
  hash : Option Str := none
deriving DecidableEq, Repr

structure CodeEdge where
  from_id : Str
  to_id : Str
  kind : Str
  line_number : Option Nat := none
  confidence : ℚ := 1
deriving DecidableEq, Repr

structure ExtractionResult where
  nodes : List CodeNode := []
  edges : List CodeEdge := []
  file_path : Str := []
  file_hash : Str := []
  language : Str := []
  errors : List Str := []
deriving DecidableEq, Repr

/-- `SUPPORTED_EXTENSIONS` from the source. -/
def SUPPORTED_EXTENSIONS : List (Str × Str) :=
  [(".ts".data, "typescript".data),
   (".tsx".data, "typescript".data),
   (".js".data, "javascript".data),
   (".jsx".data, "javascript".data),
   (".py".data, "python".data),
   (".go".data, "go".data),
   (".java".data, "java".data)]

/-- `detect_language`: lowercase extension looked up in the table. -/
def detect_language (p : Str) : Option Str :=
  alookup (toLowerStr (splitextExt p)) SUPPORTED_EXTENSIONS

/-- `make_node_id(kind, file_path, name)`: `{kind}.{file_path}[:{name}]`.
Python treats an empty-string name as absent (`if name:`). -/
def make_node_id (kind fp : Str) (name : Option Str) : Str :=
  let base := kind ++ ('.' :: fp)
  match name with
  | some n => if n.isEmpty then base else base ++ (':' :: n)
  | none => base

-- =========================================================================
-- Block-boundary resolvers
-- =========================================================================

/-- One line of `RegexExtractor._find_block_end`'s scan: plain brace
counting over every character.  Returns `none` when the closing line was
found inside this line, otherwise the updated `(depth, started)`. -/
def tsScanLine : Int → Bool → Str → Option (Int × Bool)
  | d, st, [] => some (d, st)
  | d, st, c :: cs =>
    if c = '{' then tsScanLine (d + 1) true cs
    else if c = '}' then
      if st ∧ d - 1 = 0 then none else tsScanLine (d - 1) st cs
    else tsScanLine d st cs

def tsGo (total : Nat) : Nat → Int → Bool → List Str → Nat
  | _, _, _, [] => total
  | i, d, st, l :: ls =>
    match tsScanLine d st l with
    | none => i + 1
    | some (d', st') => tsGo total (i + 1) d' st' ls

/-- `RegexExtractor._find_block_end(lines, start_line)`: counts every
`{` / `}` character (including those inside string literals); returns the
1-indexed line where the count returns to zero after having started, or
`len(lines)` at end of input. -/
def find_block_end (lines : List Str) (start : Nat) : Nat :=
  tsGo lines.length start 0 false (lines.drop start)

/-- Quote state of `RegexExtractor._find_java_block_end`:
inside a double-quoted string, inside a single-quoted character literal,
pending backslash escape. -/
structure QuoteSt where
  inS : Bool
  inC : Bool
  esc : Bool
deriving DecidableEq, Repr

def initQuoteSt : QuoteSt := ⟨false, false, false⟩

/-- One line of `_find_java_block_end`'s scan, transcribing the Python
character loop: escape consumption, quote toggling, then brace counting
only outside literals. -/
def javaScanLine : QuoteSt → Int → Bool → Str → Option (QuoteSt × Int × Bool)
  | q, d, st, [] => some (q, d, st)
  | q, d, st, c :: cs =>
    if q.esc then javaScanLine ⟨q.inS, q.inC, false⟩ d st cs
    else if c = '\\' then javaScanLine ⟨q.inS, q.inC, true⟩ d st cs
    else if c = '"' ∧ ¬q.inC then javaScanLine ⟨!q.inS, q.inC, false⟩ d st cs
    else if c = '\'' ∧ ¬q.inS then javaScanLine ⟨q.inS, !q.inC, false⟩ d st cs
    else if q.inS ∨ q.inC then javaScanLine q d st cs
    else if c = '{' then javaScanLine q (d + 1) true cs
    else if c = '}' then
      if st ∧ d - 1 = 0 then none else javaScanLine q (d - 1) st cs
    else javaScanLine q d st cs

def javaGo (total : Nat) : Nat → QuoteSt → Int → Bool → List Str → Nat
  | _, _, _, _, [] => total
  | i, q, d, st, l :: ls =>
    match javaScanLine q d st l with
    | none => i + 1
    | some (q', d', st') => javaGo total (i + 1) q' d' st' ls

/-- `RegexExtractor._find_java_block_end(lines, start_line)`: brace
counting that ignores braces inside string/char literals, with backslash
escapes consumed as a unit. -/
def find_java_block_end (lines : List Str) (start : Nat) : Nat :=
  javaGo lines.length start initQuoteSt 0 false (lines.drop start)

/-- `RegexExtractor._find_python_block_end(lines, start_line)`:
indentation-based scan; note the Python code returns the raw 0-based
index `i` of the first dedented line (not `i + 1`). -/
def find_python_block_end (lines : List Str) (start : Nat) : Nat :=
  if start ≥ lines.length then start + 1
  else
    let startLine := lines.getD start []
    let startIndent := startLine.length - (startLine.dropWhile isSpaceCh).length
    let rec go : Nat → List Str → Nat
      | _, [] => lines.length
      | i, l :: ls =>
        let stripped := stripStr l
        if stripped.isEmpty then go (i + 1) ls
        else if startsWithStr "#".data stripped then go (i + 1) ls
        else
          let cur := l.length - (l.dropWhile isSpaceCh).length
          if cur ≤ startIndent then i else go (i + 1) ls
    go (start + 1) (lines.drop (start + 1))

-- =========================================================================
-- Specification-side literal stripping (for the quote-awareness claim)
-- =========================================================================

/-- Modelled from the spec (§4.3 bracket-counting): drop every character
that is inside a single- or double-quoted literal, the quote delimiters
themselves, and backslash-escaped characters (a backslash and the
character it escapes are consumed as a unit); keep the rest.  Plain brace
counting over the result is what the spec calls the "real" depth. -/
def stripLine : QuoteSt → Str → QuoteSt × Str
  | q, [] => (q, [])
  | q, c :: cs =>
    if q.esc then stripLine ⟨q.inS, q.inC, false⟩ cs
    else if c = '\\' then stripLine ⟨q.inS, q.inC, true⟩ cs
    else if c = '"' ∧ ¬q.inC then stripLine ⟨!q.inS, q.inC, false⟩ cs
    else if c = '\'' ∧ ¬q.inS then stripLine ⟨q.inS, !q.inC, false⟩ cs
    else if q.inS ∨ q.inC then stripLine q cs
    else
      let r := stripLine q cs
      (r.1, c :: r.2)

def stripLines : QuoteSt → List Str → List Str
  | _, [] => []
  | q, l :: ls =>
    let r := stripLine q l
    r.2 :: stripLines r.1 ls

/-- The spec's description of brace-delimited boundary resolution: plain
depth counting (the `_find_block_end` engine) applied to the
literal-stripped text. -/
def spec_block_end (lines : List Str) (start : Nat) : Nat :=
  tsGo lines.length start 0 false (stripLines initQuoteSt (lines.drop start))

-- =========================================================================
-- Java comment removal (`RegexExtractor._remove_java_comments`)
-- =========================================================================

/-- First position at which `needle` occurs in `s`. -/
def findSubPos (needle s : Str) : Option Nat :=
  (List.range (s.length + 1)).find? (fun i => (s.drop i).take needle.length == needle)

/-- `re.sub(r'/\*[\s\S]*?\*/', '', content)`: delete each block comment,
lazily matched to the nearest `*/`; an unterminated `/*` is kept. -/
def removeBlockComments : Nat → Str → Str
  | 0, s => s
  | fuel + 1, s =>
    match s with
    | [] => []
    | '/' :: '*' :: rest =>
      match findSubPos "*/".data rest with
      | some j => removeBlockComments fuel (rest.drop (j + 2))
      | none => s
    | c :: rest => c :: removeBlockComments fuel rest

/-- `re.sub(r'//[^\n]*', '', content)`: delete from `//` to end of line. -/
def removeLineComments : Nat → Str → Str
  | 0, s => s
  | _ + 1, [] => []
  | fuel + 1, '/' :: '/' :: rest =>
    removeLineComments fuel (rest.dropWhile (fun c => c != '\n'))
  | fuel + 1, c :: rest => c :: removeLineComments fuel rest

def remove_java_comments (s : Str) : Str :=
  let s1 := removeBlockComments s.length s
  removeLineComments s1.length s1

-- =========================================================================
-- Pattern matchers.  Each matcher transcribes one compiled pattern of
-- `RegexExtractor`; it is applied at `^`-anchor positions (line starts)
-- by `finditer` below and returns the captured groups plus the rest of
-- the input after the match.  Greedy sub-patterns are implemented by
-- maximal munch, which coincides with the backtracking semantics for
-- these patterns because each repetition's character class is disjoint
-- from the character that must follow it.
-- =========================================================================

def litStr (pre s : Str) : Option Str :=
  if s.take pre.length = pre then some (s.drop pre.length) else none

def munch1 (p : Char → Bool) (s : Str) : Option (Str × Str) :=
  let cap := s.takeWhile p
  if cap.isEmpty then none else some (cap, s.drop cap.length)

def munch0 (p : Char → Bool) (s : Str) : Str × Str :=
  (s.takeWhile p, s.dropWhile p)

def skipSpaces (s : Str) : Str :=
  s.dropWhile isSpaceCh

/-- `\s+`. -/
def reqSpaces1 (s : Str) : Option Str :=
  (munch1 isSpaceCh s).map (fun r => r.2)

/-- `(?:kw\s+)?`, committed (no later alternative can consume `kw`). -/
def optKw (kw : String) (s : Str) : Str :=
  match litStr kw.data s with
  | some r =>
    match reqSpaces1 r with
    | some r2 => r2
    | none => s
  | none => s

def optMod1 (kw : String) (s : Str) : Option Str :=
  match litStr kw.data s with
  | some r => reqSpaces1 r
  | none => none

/-- `(?:public\s+|private\s+|protected\s+)?` in the pattern's order. -/
def optVis (s : Str) : Str :=
  (((optMod1 "public" s).orElse (fun _ => optMod1 "private" s)).orElse
    (fun _ => optMod1 "protected" s)).getD s

/-- `(?:<[^>]+>)?`. -/
def optGeneric (s : Str) : Str :=
  match s with
  | '<' :: r =>
    (match munch1 (fun c => c != '>') r with
     | some (_, r2) =>
       match r2 with
       | '>' :: r3 => r3
       | _ => s
     | none => s)
  | _ => s

/-- `(?:\s+kw\s+(cls+))?`, committed. -/
def optClause1 (kw : String) (cls : Char → Bool) (s : Str) : Option Str × Str :=
  match reqSpaces1 s with
  | some r =>
    (match litStr kw.data r with
     | some r2 =>
       match reqSpaces1 r2 with
       | some r3 =>
         (match munch1 cls r3 with
          | some (cap, r4) => (some cap, r4)
          | none => (none, s))
       | none => (none, s)
     | none => (none, s))
  | none => (none, s)

def isWordDotCh (c : Char) : Bool := isWordCh c || c == '.'

def isImportCh (c : Char) : Bool := isWordCh c || c == '.' || c == '*'

/-- `[\w.<>]` (Java class-extends capture). -/
def isJavaExtCh (c : Char) : Bool :=
  isWordCh c || c == '.' || c == '<' || c == '>'

/-- `[\w\s,.<>]` (Java implements / interface-extends / throws lists). -/
def isJavaListCh (c : Char) : Bool :=
  isWordCh c || isSpaceCh c || c == ',' || c == '.' || c == '<' || c == '>'

/-- `[\w.<>\[\]]` (Java return / field types). -/
def isJavaRetCh (c : Char) : Bool :=
  isWordCh c || c == '.' || c == '<' || c == '>' || c == '[' || c == ']'

/-- `[A-Z0-9_]`. -/
def isConstCh (c : Char) : Bool :=
  c.isUpper || c.isDigit || c == '_'

/-- `JAVA_PATTERNS['package']`: `^\s*package\s+([\w.]+)\s*;`. -/
def matchJavaPackage (s : Str) : Option (Str × Str) :=
  match litStr "package".data (skipSpaces s) with
  | none => none
  | some r =>
  match reqSpaces1 r with
  | none => none
  | some r2 =>
  match munch1 isWordDotCh r2 with
  | none => none
  | some (cap, r3) =>
  match skipSpaces r3 with
  | ';' :: rest => some (cap, rest)
  | _ => none

/-- `JAVA_PATTERNS['import']`: `^\s*import\s+(?:static\s+)?([\w.*]+)\s*;`. -/
def matchJavaImport (s : Str) : Option (Str × Str) :=
  match litStr "import".data (skipSpaces s) with
  | none => none
  | some r =>
  match reqSpaces1 r with
  | none => none
  | some r2 =>
  let r3 := optKw "static" r2
  match munch1 isImportCh r3 with
  | none => none
  | some (cap, r4) =>
  match skipSpaces r4 with
  | ';' :: rest => some (cap, rest)
  | _ => none

structure JavaClassM where
  name : Str
  exts : Option Str
  impls : Option Str
deriving Repr

/-- `JAVA_PATTERNS['class']`. -/
def matchJavaClass (s : Str) : Option (JavaClassM × Str) :=
  let s1 := optVis (skipSpaces s)
  let s2 := optKw "abstract" s1
  let s3 := optKw "final" s2
  let s4 := optKw "static" s3
  match litStr "class".data s4 with
  | none => none
  | some s5 =>
  match reqSpaces1 s5 with
  | none => none
  | some s6 =>
  match munch1 isWordCh s6 with
  | none => none
  | some (nm, s7) =>
  let s8 := optGeneric s7
  let (exts, s9) := optClause1 "extends" isJavaExtCh s8
  let (impls, s10) := optClause1 "implements" isJavaListCh s9
  match skipSpaces s10 with
  | '{' :: rest => some (⟨nm, exts, impls⟩, rest)
  | _ => none

structure JavaIfaceM where
  name : Str
  exts : Option Str
deriving Repr

/-- `JAVA_PATTERNS['interface']`. -/
def matchJavaIface (s : Str) : Option (JavaIfaceM × Str) :=
  match litStr "interface".data (optVis (skipSpaces s)) with
  | none => none
  | some s2 =>
  match reqSpaces1 s2 with
  | none => none
  | some s3 =>
  match munch1 isWordCh s3 with
  | none => none
  | some (nm, s4) =>
  let s5 := optGeneric s4
  let (exts, s6) := optClause1 "extends" isJavaListCh s5
  match skipSpaces s6 with
  | '{' :: rest => some (⟨nm, exts⟩, rest)
  | _ => none

structure JavaEnumM where
  name : Str
  impls : Option Str
deriving Repr

/-- `JAVA_PATTERNS['enum']`. -/
def matchJavaEnum (s : Str) : Option (JavaEnumM × Str) :=
  match litStr "enum".data (optVis (skipSpaces s)) with
  | none => none
  | some s2 =>
  match reqSpaces1 s2 with
  | none => none
  | some s3 =>
  match munch1 isWordCh s3 with
  | none => none
  | some (nm, s4) =>
  let (impls, s5) := optClause1 "implements" isJavaListCh s4
  match skipSpaces s5 with
  | '{' :: rest => some (⟨nm, impls⟩, rest)
  | _ => none

/-- `JAVA_PATTERNS['annotation']`: `^\s*(vis)?@interface\s+(\w+)\s*\{`. -/
def matchJavaAnnot (s : Str) : Option (Str × Str) :=
  match litStr "@interface".data (optVis (skipSpaces s)) with
  | none => none
  | some s2 =>
  match reqSpaces1 s2 with
  | none => none
  | some s3 =>
  match munch1 isWordCh s3 with
  | none => none
  | some (nm, s4) =>
  match skipSpaces s4 with
  | '{' :: rest => some (nm, rest)
  | _ => none

/-- `(?:@\w+(?:\([^)]*\))?\s+)*`: the method pattern's annotation star;
an iteration that fails part-way is not taken (the star stops there). -/
def skipAnnots : Nat → Str → Str
  | 0, s => s
  | fuel + 1, s =>
    match s with
    | '@' :: r =>
      (match munch1 isWordCh r with
       | some (_, r2) =>
         let r3 :=
           match r2 with
           | '(' :: t =>
             (match (munch0 (fun c => c != ')') t).2 with
              | ')' :: t3 => t3
              | _ => r2)
           | _ => r2
         (match reqSpaces1 r3 with
          | some r4 => skipAnnots fuel r4
          | none => s)
       | none => s)
    | _ => s

/-- `(?:<[^>]+>\s+)?` (generic method type parameters). -/
def optGenericSp (s : Str) : Str :=
  match s with
  | '<' :: r =>
    (match munch1 (fun c => c != '>') r with
     | some (_, r2) =>
       match r2 with
       | '>' :: r3 =>
         (match reqSpaces1 r3 with
          | some r4 => r4
          | none => s)
       | _ => s
     | none => s)
  | _ => s

def matchRetKw : List String → Str → Option (Str × Str)
  | [], _ => none
  | kw :: rest, s =>
    match litStr kw.data s with
    | some r => some (kw.data, r)
    | none => matchRetKw rest s

/-- `([A-Z][\w.<>\[\]]*|void|int|long|short|byte|char|boolean|float|double)`,
alternatives tried in the pattern's order (their first characters are
pairwise incompatible, so the choice is deterministic). -/
def matchRetType (s : Str) : Option (Str × Str) :=
  match s with
  | [] => none
  | c :: r =>
    if c.isUpper then
      let (more, r2) := munch0 isJavaRetCh r
      some (c :: more, r2)
    else
      matchRetKw ["void", "int", "long", "short", "byte", "char",
                  "boolean", "float", "double"] s

structure JavaMethodM where
  ret : Str
  name : Str
  params : Str
  throwsCl : Option Str
deriving Repr

/-- `JAVA_PATTERNS['method']`. -/
def matchJavaMethod (s : Str) : Option (JavaMethodM × Str) :=
  let s1 := skipAnnots (skipSpaces s).length.succ (skipSpaces s)
  let s2 := optVis s1
  let s3 := optKw "static" s2
  let s4 := optKw "final" s3
  let s5 := optKw "abstract" s4
  let s6 := optKw "synchronized" s5
  let s7 := optKw "native" s6
  let s8 := optGenericSp s7
  match matchRetType s8 with
  | none => none
  | some (ret, s9) =>
  match reqSpaces1 s9 with
  | none => none
  | some s10 =>
  match munch1 isWordCh s10 with
  | none => none
  | some (nm, s11) =>
  match skipSpaces s11 with
  | '(' :: s13 =>
    let (ps, s14) := munch0 (fun c => c != ')') s13
    (match s14 with
     | ')' :: s15 =>
       let (thr, s16) := optClause1 "throws" isJavaListCh s15
       (match skipSpaces s16 with
        | '{' :: rest => some (⟨ret, nm, ps, thr⟩, rest)
        | ';' :: rest => some (⟨ret, nm, ps, thr⟩, rest)
        | _ => none)
     | _ => none)
  | _ => none

/-- `JAVA_PATTERNS['constant']`:
`^\s*(vis)?static\s+final\s+([\w.<>\[\]]+)\s+([A-Z][A-Z0-9_]*)\s*=`. -/
def matchJavaConst (s : Str) : Option ((Str × Str) × Str) :=
  match litStr "static".data (optVis (skipSpaces s)) with
  | none => none
  | some s2 =>
  match reqSpaces1 s2 with
  | none => none
  | some s3 =>
  match litStr "final".data s3 with
  | none => none
  | some s4 =>
  match reqSpaces1 s4 with
  | none => none
  | some s5 =>
  match munch1 isJavaRetCh s5 with
  | none => none
  | some (ty, s6) =>
  match reqSpaces1 s6 with
  | none => none
  | some s7 =>
  match s7 with
  | c :: s8 =>
    if c.isUpper then
      let (more, s9) := munch0 isConstCh s8
      match skipSpaces s9 with
      | '=' :: rest => some ((ty, c :: more), rest)
      | _ => none
    else none
  | [] => none

-- =========================================================================
-- TypeScript / JavaScript pattern matchers (`TS_PATTERNS`, used ones)
-- =========================================================================

/-- The optional clause `(?:(?:\{[^}]+\}|\*\s+as\s+\w+|\w+)\s+from\s+)?`
of `TS_PATTERNS['import']`, committed. -/
def tsImportClause (s : Str) : Str :=
  let alt : Option Str :=
    match s with
    | '{' :: t =>
      (match munch1 (fun c => c != '}') t with
       | some (_, t2) =>
         match t2 with
         | '}' :: t3 => some t3
         | _ => none
       | none => none)
    | '*' :: t =>
      (match reqSpaces1 t with
       | some t2 =>
         match litStr "as".data t2 with
         | some t3 =>
           (match reqSpaces1 t3 with
            | some t4 => (munch1 isWordCh t4).map (fun r => r.2)
            | none => none)
         | none => none
       | none => none)
    | _ => (munch1 isWordCh s).map (fun r => r.2)
  match alt with
  | some r =>
    (match reqSpaces1 r with
     | some r2 =>
       match litStr "from".data r2 with
       | some r3 =>
         (match reqSpaces1 r3 with
          | some r4 => r4
          | none => s)
       | none => s
     | none => s)
  | none => s

/-- `TS_PATTERNS['import']`:
`^import\s+(?:...\s+from\s+)?['"]([^'"]+)['"]`. -/
def matchTsImport (s : Str) : Option (Str × Str) :=
  match litStr "import".data s with
  | none => none
  | some r =>
  match reqSpaces1 r with
  | none => none
  | some r2 =>
  match tsImportClause r2 with
  | q :: r4 =>
    if q = '\'' ∨ q = '"' then
      match munch1 (fun c => c != '\'' && c != '"') r4 with
      | some (cap, r5) =>
        (match r5 with
         | q2 :: rest =>
           if q2 = '\'' ∨ q2 = '"' then some (cap, rest) else none
         | [] => none)
      | none => none
    else none
  | [] => none

/-- `TS_PATTERNS['export_function']`:
`^export\s+(?:async\s+)?function\s+(\w+)`. -/
def matchTsExportFunction (s : Str) : Option (Str × Str) :=
  match litStr "export".data s with
  | none => none
  | some r =>
  match reqSpaces1 r with
  | none => none
  | some r2 =>
  match litStr "function".data (optKw "async" r2) with
  | none => none
  | some r3 =>
  match reqSpaces1 r3 with
  | none => none
  | some r4 => munch1 isWordCh r4

/-- `TS_PATTERNS['export_const_arrow']`:
`^export\s+const\s+(\w+)\s*=\s*(?:async\s+)?\([^)]*\)\s*(?::\s*[^=]+)?\s*=>`. -/
def matchTsExportConstArrow (s : Str) : Option (Str × Str) :=
  match litStr "export".data s with
  | none => none
  | some r =>
  match reqSpaces1 r with
  | none => none
  | some r2 =>
  match litStr "const".data r2 with
  | none => none
  | some r3 =>
  match reqSpaces1 r3 with
  | none => none
  | some r4 =>
  match munch1 isWordCh r4 with
  | none => none
  | some (nm, r5) =>
  match skipSpaces r5 with
  | '=' :: r6 =>
    let r7 := optKw "async" (skipSpaces r6)
    (match r7 with
     | '(' :: r8 =>
       (match (munch0 (fun c => c != ')') r8).2 with
        | ')' :: r9 =>
          let r10 := skipSpaces r9
          let r11 :=
            match r10 with
            | ':' :: t =>
              (match munch1 (fun c => c != '=') (skipSpaces t) with
               | some (_, t2) => t2
               | none => r10)
            | _ => r10
          (match skipSpaces r11 with
           | '=' :: '>' :: rest => some (nm, rest)
           | _ => none)
        | _ => none)
     | _ => none)
  | _ => none

structure TsClassM where
  name : Str
  exts : Option Str
  impls : Option Str
deriving Repr

/-- `TS_PATTERNS['class']`:
`^(?:export\s+)?(?:abstract\s+)?class\s+(\w+)(?:\s+extends\s+(\w+))?(?:\s+implements\s+([^{]+))?`. -/
def matchTsClass (s : Str) : Option (TsClassM × Str) :=
  match litStr "class".data (optKw "abstract" (optKw "export" s)) with
  | none => none
  | some s2 =>
  match reqSpaces1 s2 with
  | none => none
  | some s3 =>
  match munch1 isWordCh s3 with
  | none => none
  | some (nm, s4) =>
  let (exts, s5) := optClause1 "extends" isWordCh s4
  let (impls, s6) := optClause1 "implements" (fun c => c != '{') s5
  some (⟨nm, exts, impls⟩, s6)

structure TsIfaceM where
  name : Str
  exts : Option Str
deriving Repr

/-- `TS_PATTERNS['interface']`:
`^(?:export\s+)?interface\s+(\w+)(?:\s+extends\s+([^{]+))?`. -/
def matchTsIface (s : Str) : Option (TsIfaceM × Str) :=
  match litStr "interface".data (optKw "export" s) with
  | none => none
  | some s2 =>
  match reqSpaces1 s2 with
  | none => none
  | some s3 =>
  match munch1 isWordCh s3 with
  | none => none
  | some (nm, s4) =>
  let (exts, s5) := optClause1 "extends" (fun c => c != '{') s4
  some (⟨nm, exts⟩, s5)

/-- `TS_PATTERNS['type']`: `^(?:export\s+)?type\s+(\w+)\s*=`. -/
def matchTsType (s : Str) : Option (Str × Str) :=
  match litStr "type".data (optKw "export" s) with
  | none => none
  | some s2 =>
  match reqSpaces1 s2 with
  | none => none
  | some s3 =>
  match munch1 isWordCh s3 with
  | none => none
  | some (nm, s4) =>
  match skipSpaces s4 with
  | '=' :: rest => some (nm, rest)
  | _ => none

-- =========================================================================
-- Python pattern matchers (`PY_PATTERNS`)
-- =========================================================================

/-- `PY_PATTERNS['import']`: `^(?:from\s+(\S+)\s+)?import\s+(.+)$`. -/
def matchPyImport (s : Str) : Option ((Option Str × Str) × Str) :=
  let fromCl : Option Str × Str :=
    match litStr "from".data s with
    | some r =>
      (match reqSpaces1 r with
       | some r2 =>
         match munch1 (fun c => !isSpaceCh c) r2 with
         | some (cap, r3) =>
           (match reqSpaces1 r3 with
            | some r4 => (some cap, r4)
            | none => (none, s))
         | none => (none, s)
       | none => (none, s))
    | none => (none, s)
  match litStr "import".data fromCl.2 with
  | none => none
  | some r =>
  match reqSpaces1 r with
  | none => none
  | some r2 =>
  match munch1 (fun c => c != '\n') r2 with
  | none => none
  | some (cap2, r3) => some ((fromCl.1, cap2), r3)

/-- `PY_PATTERNS['function']`: `^(?:async\s+)?def\s+(\w+)\s*\(`. -/
def matchPyFunction (s : Str) : Option (Str × Str) :=
  match litStr "def".data (optKw "async" s) with
  | none => none
  | some s2 =>
  match reqSpaces1 s2 with
  | none => none
  | some s3 =>
  match munch1 isWordCh s3 with
  | none => none
  | some (nm, s4) =>
  match skipSpaces s4 with
  | '(' :: rest => some (nm, rest)
  | _ => none

/-- `PY_PATTERNS['class']`: `^class\s+(\w+)(?:\s*\(([^)]*)\))?:`. -/
def matchPyClass (s : Str) : Option ((Str × Option Str) × Str) :=
  match litStr "class".data s with
  | none => none
  | some s2 =>
  match reqSpaces1 s2 with
  | none => none
  | some s3 =>
  match munch1 isWordCh s3 with
  | none => none
  | some (nm, s4) =>
  let withParens : Option ((Str × Option Str) × Str) :=
    match skipSpaces s4 with
    | '(' :: t2 =>
      let (bases, t3) := munch0 (fun c => c != ')') t2
      (match t3 with
       | ')' :: ':' :: rest => some ((nm, some bases), rest)
       | _ => none)
    | _ => none
  match withParens with
  | some res => some res
  | none =>
    match s4 with
    | ':' :: rest => some ((nm, none), rest)
    | _ => none

/-- `PY_PATTERNS['const']`: `^([A-Z][A-Z0-9_]*)\s*=`. -/
def matchPyConst (s : Str) : Option (Str × Str) :=
  match s with
  | c :: r =>
    if c.isUpper then
      let (more, r2) := munch0 isConstCh r
      match skipSpaces r2 with
      | '=' :: rest => some (c :: more, rest)
      | _ => none
    else none
  | [] => none

-- =========================================================================
-- `finditer`: non-overlapping, leftmost matches of a `^`-anchored
-- MULTILINE pattern.  A pattern is attempted exactly at the anchor
-- positions (start of input, or just after a newline); after a match the
-- scan resumes at the match end.  All patterns here match at least one
-- character.
-- =========================================================================

/-- Attach the matched text to a matcher's result. -/
def withText (pat : Str → Option (γ × Str)) (s : Str) : Option ((γ × Str) × Str) :=
  match pat s with
  | some (g, rest) => some ((g, s.take (s.length - rest.length)), rest)
  | none => none

def finditerGo (pat : Str → Option (γ × Str)) : Nat → Nat → Str → Bool → List (γ × Nat)
  | 0, _, _, _ => []
  | fuel + 1, pos, s, anchor =>
    match (if anchor then pat s else none) with
    | some (g, rest) =>
      let consumed := s.length - rest.length
      if consumed = 0 then
        match s with
        | [] => []
        | c :: s2 => finditerGo pat fuel (pos + 1) s2 (c == '\n')
      else
        (g, pos) ::
          finditerGo pat fuel (pos + consumed) rest
            (decide ((s.take consumed).getLast? = some '\n'))
    | none =>
      match s with
      | [] => []
      | c :: s2 => finditerGo pat fuel (pos + 1) s2 (c == '\n')

/-- All matches of `pat` in `content`, with their start positions. -/
def finditer (pat : Str → Option (γ × Str)) (content : Str) : List (γ × Nat) :=
  finditerGo pat (content.length + 1) 0 content true

-- =========================================================================
-- `RegexExtractor.extract_typescript`
-- =========================================================================

/-- The TS `implements` loop (extract_typescript lines 376-386): one edge
per comma token, whitespace-stripped only, confidence 0.8. -/
def tsImplementsEdges (fromId : Str) (ln : Nat) (clause : Str) : List CodeEdge :=
  (splitOnCh ',' clause).filterMap (fun tok =>
    let t := stripStr tok
    if t.isEmpty then none
    else
      some { from_id := fromId, to_id := "interface.".data ++ t,
             kind := "implements".data, line_number := some ln,
             confidence := (mkRat 4 5) })

/-- The TS class `extends` edge (extract_typescript lines 366-373): the
single `\w+`-captured supertype token used verbatim, confidence 0.8. -/
def tsClassExtendsEdge (fromId : Str) (extendsTok : Str) (ln : Nat) : CodeEdge :=
  { from_id := fromId, to_id := "class.".data ++ extendsTok,
    kind := "extends".data, line_number := some ln, confidence := (mkRat 4 5) }

def extract_typescript (md5hex : Str → Str) (content fp : Str) : ExtractionResult :=
  let fileHash := md5hex content
  let fileId := make_node_id "file".data fp none
  let fileNode : CodeNode :=
    { id := fileId, kind := "file".data, name := basename fp, file_path := fp,
      language := some "typescript".data, hash := some fileHash }
  let lines := splitOnCh '\n' content
  let importEdges := (finditer matchTsImport content).map (fun m =>
    ({ from_id := fileId, to_id := "module.".data ++ m.1,
       kind := "imports".data, line_number := some (lineOfPos content m.2) } : CodeEdge))
  let fnItems := (finditer matchTsExportFunction content).map (fun m =>
    let ln := lineOfPos content m.2
    let node : CodeNode :=
      { id := make_node_id "function".data fp (some m.1), kind := "function".data,
        name := m.1, file_path := fp, line_start := ln,
        line_end := find_block_end lines (ln - 1),
        visibility := some "public".data, language := some "typescript".data }
    (node, ({ from_id := fileId, to_id := node.id, kind := "defines".data } : CodeEdge)))
  let arrowItems := (finditer matchTsExportConstArrow content).map (fun m =>
    let ln := lineOfPos content m.2
    let node : CodeNode :=
      { id := make_node_id "function".data fp (some m.1), kind := "function".data,
        name := m.1, file_path := fp, line_start := ln,
        line_end := find_block_end lines (ln - 1),
        visibility := some "public".data, language := some "typescript".data }
    (node, ({ from_id := fileId, to_id := node.id, kind := "defines".data } : CodeEdge)))
  let classItems := (finditer matchTsClass content).map (fun m =>
    let g := m.1
    let ln := lineOfPos content m.2
    let node : CodeNode :=
      { id := make_node_id "class".data fp (some g.name), kind := "class".data,
        name := g.name, file_path := fp, line_start := ln,
        line_end := find_block_end lines (ln - 1),
        visibility := some "public".data, language := some "typescript".data }
    let extEdges : List CodeEdge :=
      match g.exts with
      | some e => [tsClassExtendsEdge node.id e ln]
      | none => []
    let implEdges : List CodeEdge :=
      match g.impls with
      | some cl => tsImplementsEdges node.id ln cl
      | none => []
    (node, ({ from_id := fileId, to_id := node.id, kind := "defines".data } : CodeEdge)
             :: extEdges ++ implEdges))
  let ifaceItems := (finditer matchTsIface content).map (fun m =>
    let g := m.1
    let ln := lineOfPos content m.2
    let node : CodeNode :=
      { id := make_node_id "interface".data fp (some g.name), kind := "interface".data,
        name := g.name, file_path := fp, line_start := ln,
        line_end := find_block_end lines (ln - 1),
        language := some "typescript".data }
    (node, ({ from_id := fileId, to_id := node.id, kind := "defines".data } : CodeEdge)))
  let typeItems := (finditer matchTsType content).map (fun m =>
    let ln := lineOfPos content m.2
    let node : CodeNode :=
      { id := make_node_id "type".data fp (some m.1), kind := "type".data,
        name := m.1, file_path := fp, line_start := ln, line_end := ln,
        language := some "typescript".data }
    (node, ({ from_id := fileId, to_id := node.id, kind := "defines".data } : CodeEdge)))
  { nodes := fileNode :: (fnItems.map Prod.fst) ++ (arrowItems.map Prod.fst)
      ++ (classItems.map Prod.fst) ++ (ifaceItems.map Prod.fst) ++ (typeItems.map Prod.fst),
    edges := importEdges ++ (fnItems.map Prod.snd) ++ (arrowItems.map Prod.snd)
      ++ (classItems.map Prod.snd).flatten ++ (ifaceItems.map Prod.snd) ++ (typeItems.map Prod.snd),
    file_path := fp, file_hash := fileHash, language := "typescript".data }

-- =========================================================================
-- `RegexExtractor.extract_python`
-- =========================================================================

/-- Target of a bare `import xxx, yyy` line:
`imports.split(',')[0].strip().split()[0]`. -/
def pyBareImportTarget (importsTxt : Str) : Str :=
  (stripStr ((splitOnCh ',' importsTxt).headD [])).takeWhile (fun c => !isSpaceCh c)

/-- The Python base-class loop (extract_python lines 525-535): one
`extends` edge per comma token, skipping empties and `object`. -/
def pyExtendsEdges (fromId : Str) (ln : Nat) (bases : Str) : List CodeEdge :=
  (splitOnCh ',' bases).filterMap (fun tok =>
    let t := stripStr tok
    if t.isEmpty ∨ t = "object".data then none
    else
      some { from_id := fromId, to_id := "class.".data ++ t,
             kind := "extends".data, line_number := some ln,
             confidence := (mkRat 4 5) })

def extract_python (md5hex : Str → Str) (content fp : Str) : ExtractionResult :=
  let fileHash := md5hex content
  let fileId := make_node_id "file".data fp none
  let fileNode : CodeNode :=
    { id := fileId, kind := "file".data, name := basename fp, file_path := fp,
      language := some "python".data, hash := some fileHash }
  let lines := splitOnCh '\n' content
  let importEdges := (finditer matchPyImport content).map (fun m =>
    let target :=
      match m.1.1 with
      | some f => "module.".data ++ f
      | none => "module.".data ++ pyBareImportTarget m.1.2
    ({ from_id := fileId, to_id := target, kind := "imports".data,
       line_number := some (lineOfPos content m.2) } : CodeEdge))
  let fnItems := (finditer matchPyFunction content).map (fun m =>
    let ln := lineOfPos content m.2
    let vis := if startsWithStr "_".data m.1 then "private".data else "public".data
    let node : CodeNode :=
      { id := make_node_id "function".data fp (some m.1), kind := "function".data,
        name := m.1, file_path := fp, line_start := ln,
        line_end := find_python_block_end lines (ln - 1),
        visibility := some vis, language := some "python".data }
    (node, ({ from_id := fileId, to_id := node.id, kind := "defines".data } : CodeEdge)))
  let classItems := (finditer matchPyClass content).map (fun m =>
    let g := m.1
    let ln := lineOfPos content m.2
    let node : CodeNode :=
      { id := make_node_id "class".data fp (some g.1), kind := "class".data,
        name := g.1, file_path := fp, line_start := ln,
        line_end := find_python_block_end lines (ln - 1),
        language := some "python".data }
    let extEdges : List CodeEdge :=
      match g.2 with
      | some bs => pyExtendsEdges node.id ln bs
      | none => []
    (node, ({ from_id := fileId, to_id := node.id, kind := "defines".data } : CodeEdge)
             :: extEdges))
  let constItems := (finditer matchPyConst content).map (fun m =>
    let ln := lineOfPos content m.2
    let node : CodeNode :=
      { id := make_node_id "constant".data fp (some m.1), kind := "constant".data,
        name := m.1, file_path := fp, line_start := ln, line_end := ln,
        language := some "python".data }
    (node, ({ from_id := fileId, to_id := node.id, kind := "defines".data } : CodeEdge)))
  { nodes := fileNode :: (fnItems.map Prod.fst) ++ (classItems.map Prod.fst)
      ++ (constItems.map Prod.fst),
    edges := importEdges ++ (fnItems.map Prod.snd)
      ++ (classItems.map Prod.snd).flatten ++ (constItems.map Prod.snd),
    file_path := fp, file_hash := fileHash, language := "python".data }

-- =========================================================================
-- `RegexExtractor.extract_java`
-- =========================================================================

/-- Visibility from the raw match text:
`'public' in match_text`, elif `'protected'`, elif `'private'`, else
package (substring checks on the whole matched text). -/
def javaVisibility (text : Str) : Str :=
  if containsSub "public".data text then "public".data
  else if containsSub "protected".data text then "protected".data
  else if containsSub "private".data text then "private".data
  else "package".data

/-- `tok.strip().split('<')[0].strip()`. -/
def javaGenericStrip (tok : Str) : Str :=
  stripStr ((splitOnCh '<' (stripStr tok)).headD [])

/-- The Java `implements` loops (classes 781-791, enums 865-875): one
edge per comma token, generic parameters stripped, confidence 0.8. -/
def javaImplementsEdges (fromId : Str) (clause : Str) (ln : Nat) : List CodeEdge :=
  (splitOnCh ',' clause).filterMap (fun tok =>
    let n := javaGenericStrip tok
    if n.isEmpty then none
    else
      some { from_id := fromId, to_id := "interface.".data ++ n,
             kind := "implements".data, line_number := some ln,
             confidence := (mkRat 4 5) })

/-- The Java interface `extends` loop (lines 826-836): one edge per comma
token, generic parameters stripped, confidence 0.8. -/
def javaIfaceExtendsEdges (fromId : Str) (clause : Str) (ln : Nat) : List CodeEdge :=
  (splitOnCh ',' clause).filterMap (fun tok =>
    let n := javaGenericStrip tok
    if n.isEmpty then none
    else
      some { from_id := fromId, to_id := "interface.".data ++ n,
             kind := "extends".data, line_number := some ln,
             confidence := (mkRat 4 5) })

/-- The Java class `extends` edge (lines 770-778):
`extends.strip().split('<')[0].strip()`, confidence 0.8. -/
def javaClassExtendsEdge (fromId : Str) (extendsTxt : Str) (ln : Nat) : CodeEdge :=
  { from_id := fromId, to_id := "class.".data ++ javaGenericStrip extendsTxt,
    kind := "extends".data, line_number := some ln, confidence := (mkRat 4 5) }

/-- One step of the Java class loop (lines 717-797), threading the
`class_stack` of `(name, class_id, line_end)` entries (head = top). -/
def javaClassStep (lines : List Str) (cleaned fp fileId pkg : Str)
    (acc : List CodeNode × List CodeEdge × List (Str × Str × Nat))
    (m : (JavaClassM × Str) × Nat) :
    List CodeNode × List CodeEdge × List (Str × Str × Nat) :=
  let g := m.1.1
  let text := m.1.2
  let ln := lineOfPos cleaned m.2
  let le := find_java_block_end lines (ln - 1)
  let vis := javaVisibility text
  let qualified := if pkg.isEmpty then g.name else pkg ++ ('.' :: g.name)
  let cid := make_node_id "class".data fp (some qualified)
  let node : CodeNode :=
    { id := cid, kind := "class".data, name := g.name, file_path := fp,
      line_start := ln, line_end := le, visibility := some vis,
      language := some "java".data }
  let parentEdge : CodeEdge :=
    match acc.2.2 with
    | (_, pid, pend) :: _ =>
      if ln < pend then
        { from_id := pid, to_id := cid, kind := "contains".data, line_number := some ln }
      else
        { from_id := fileId, to_id := cid, kind := "defines".data }
    | [] => { from_id := fileId, to_id := cid, kind := "defines".data }
  let extEdges : List CodeEdge :=
    match g.exts with
    | some e => [javaClassExtendsEdge cid e ln]
    | none => []
  let implEdges : List CodeEdge :=
    match g.impls with
    | some cl => javaImplementsEdges cid cl ln
    | none => []
  let stack2 := acc.2.2.dropWhile (fun t => ln ≥ t.2.2)
  (acc.1 ++ [node], acc.2.1 ++ (parentEdge :: extEdges ++ implEdges),
   (g.name, cid, le) :: stack2)

structure TypeRange where
  name : Str
  tid : Str
  lineStart : Nat
  lineEnd : Nat
deriving DecidableEq, Repr

/-- Stable insertion into a start-line-sorted list (models the stable
Python `list.sort(key=lambda x: x[2])`). -/
def insertByStart (x : TypeRange) : List TypeRange → List TypeRange
  | [] => [x]
  | y :: ys =>
    if x.lineStart ≤ y.lineStart then x :: y :: ys else y :: insertByStart x ys

def sortByStart : List TypeRange → List TypeRange
  | [] => []
  | x :: xs => insertByStart x (sortByStart xs)

/-- The keyword filter of the method loop (line 928). -/
def javaCtrlKeywords : List Str :=
  ["throw".data, "return".data, "new".data, "if".data, "for".data,
   "while".data, "switch".data]

/-- The innermost-containing-type lookup of the method loop (lines
962-967): first span in the reversed start-sorted range list that
strictly contains the line. -/
def javaFindContaining (ranges : List TypeRange) (ln : Nat) : Option TypeRange :=
  ranges.reverse.find? (fun t => t.lineStart < ln ∧ ln < t.lineEnd)

/-- The Java method loop (lines 914-981): constructor and keyword
suppression, node construction, innermost containment attribution. -/
def javaMethodPhase (lines : List Str) (cleaned fp fileId : Str)
    (typeNames : List Str) (ranges : List TypeRange)
    (ms : List ((JavaMethodM × Str) × Nat)) : List CodeNode × List CodeEdge :=
  ms.foldl (fun acc m =>
    let g := m.1.1
    let text := m.1.2
    let ln := lineOfPos cleaned m.2
    if g.name ∈ typeNames ∧ g.ret = g.name then acc
    else if g.ret ∈ javaCtrlKeywords then acc
    else
      let le := find_java_block_end lines (ln - 1)
      let vis := javaVisibility text
      let mid := make_node_id "function".data fp (some g.name)
      let signature := g.ret ++ (' ' :: g.name) ++ ('(' :: g.params) ++ [')'] ++
        (match g.throwsCl with
         | some t => " throws ".data ++ stripStr t
         | none => [])
      let node : CodeNode :=
        { id := mid, kind := "function".data, name := g.name, file_path := fp,
          line_start := ln, line_end := le, signature := some signature,
          visibility := some vis, language := some "java".data }
      let edge : CodeEdge :=
        match javaFindContaining ranges ln with
        | some t =>
          { from_id := t.tid, to_id := mid, kind := "contains".data,
            line_number := some ln }
        | none => { from_id := fileId, to_id := mid, kind := "defines".data }
      (acc.1 ++ [node], acc.2 ++ [edge]))
    ([], [])

/-- Java import edges (extract_java lines 696-711). -/
def javaImportEdges (cleaned fileId : Str) : List CodeEdge :=
  (finditer matchJavaImport cleaned).map (fun m =>
    let p := m.1
    let target :=
      if endsWithStr ".*".data p then "package.".data ++ p.take (p.length - 2)
      else "class.".data ++ p
    { from_id := fileId, to_id := target, kind := "imports".data,
      line_number := some (lineOfPos cleaned m.2) })

/-- Java interface loop (extract_java lines 800-836). -/
def javaIfaceItems (lines : List Str) (cleaned fp fileId pkg : Str) :
    List (CodeNode × List CodeEdge) :=
  (finditer matchJavaIface cleaned).map (fun m =>
    let g := m.1
    let ln := lineOfPos cleaned m.2
    let q := if pkg.isEmpty then g.name else pkg ++ ('.' :: g.name)
    let iid := make_node_id "interface".data fp (some q)
    let node : CodeNode :=
      { id := iid, kind := "interface".data, name := g.name, file_path := fp,
        line_start := ln, line_end := find_java_block_end lines (ln - 1),
        language := some "java".data }
    let extE : List CodeEdge :=
      match g.exts with
      | some cl => javaIfaceExtendsEdges iid cl ln
      | none => []
    (node, ({ from_id := fileId, to_id := iid, kind := "defines".data } : CodeEdge) :: extE))

/-- Java enum loop (extract_java lines 839-875). -/
def javaEnumItems (lines : List Str) (cleaned fp fileId pkg : Str) :
    List (CodeNode × List CodeEdge) :=
  (finditer matchJavaEnum cleaned).map (fun m =>
    let g := m.1
    let ln := lineOfPos cleaned m.2
    let q := if pkg.isEmpty then g.name else pkg ++ ('.' :: g.name)
    let eid := make_node_id "enum".data fp (some q)
    let node : CodeNode :=
      { id := eid, kind := "enum".data, name := g.name, file_path := fp,
        line_start := ln, line_end := find_java_block_end lines (ln - 1),
        language := some "java".data }
    let implE : List CodeEdge :=
      match g.impls with
      | some cl => javaImplementsEdges eid cl ln
      | none => []
    (node, ({ from_id := fileId, to_id := eid, kind := "defines".data } : CodeEdge) :: implE))

/-- Java `@interface` loop (extract_java lines 878-900). -/
def javaAnnotItems (lines : List Str) (cleaned fp fileId pkg : Str) :
    List (CodeNode × CodeEdge) :=
  (finditer matchJavaAnnot cleaned).map (fun m =>
    let ln := lineOfPos cleaned m.2
    let q := if pkg.isEmpty then m.1 else pkg ++ ('.' :: m.1)
    let aid := make_node_id "annotation".data fp (some q)
    let node : CodeNode :=
      { id := aid, kind := "annotation".data, name := m.1, file_path := fp,
        line_start := ln, line_end := find_java_block_end lines (ln - 1),
        language := some "java".data }
    (node, { from_id := fileId, to_id := aid, kind := "defines".data }))

/-- Java constant loop (extract_java lines 984-1005). -/
def javaConstItems (cleaned fp fileId : Str) : List (CodeNode × CodeEdge) :=
  (finditer matchJavaConst cleaned).map (fun m =>
    let ln := lineOfPos cleaned m.2
    let node : CodeNode :=
      { id := make_node_id "constant".data fp (some m.1.2), kind := "constant".data,
        name := m.1.2, file_path := fp, line_start := ln, line_end := ln,
        language := some "java".data }
    (node, { from_id := fileId, to_id := node.id, kind := "defines".data }))

/-- The first `package` match, or the empty string (extract_java 687-693). -/
def javaPackageName (cleaned : Str) : Str :=
  match finditer matchJavaPackage cleaned with
  | m :: _ => m.1
  | [] => []

def extract_java (md5hex : Str → Str) (content fp : Str) : ExtractionResult :=
  let fileHash := md5hex content
  let cleaned := remove_java_comments content
  let lines := splitOnCh '\n' cleaned
  let fileId := make_node_id "file".data fp none
  let fileNode : CodeNode :=
    { id := fileId, kind := "file".data, name := basename fp, file_path := fp,
      language := some "java".data, hash := some fileHash }
  let pkg := javaPackageName cleaned
  let importEdges := javaImportEdges cleaned fileId
  let classAcc := (finditer (withText matchJavaClass) cleaned).foldl
    (javaClassStep lines cleaned fp fileId pkg) ([], [], [])
  let ifaceItems := javaIfaceItems lines cleaned fp fileId pkg
  let enumItems := javaEnumItems lines cleaned fp fileId pkg
  let annotItems := javaAnnotItems lines cleaned fp fileId pkg
  let typeNodes := classAcc.1 ++ (ifaceItems.map Prod.fst) ++ (enumItems.map Prod.fst)
    ++ (annotItems.map Prod.fst)
  let typeNames := typeNodes.map (fun n => n.name)
  let ranges := sortByStart (typeNodes.map (fun n =>
    ⟨n.name, n.id, n.line_start, n.line_end⟩))
  let methodAcc := javaMethodPhase lines cleaned fp fileId typeNames ranges
    (finditer (withText matchJavaMethod) cleaned)
  let constItems := javaConstItems cleaned fp fileId
  { nodes := fileNode :: typeNodes ++ methodAcc.1 ++ (constItems.map Prod.fst),
    edges := importEdges ++ classAcc.2.1 ++ (ifaceItems.map Prod.snd).flatten
      ++ (enumItems.map Prod.snd).flatten ++ (annotItems.map Prod.snd)
      ++ methodAcc.2 ++ (constItems.map Prod.snd),
    file_path := fp, file_hash := fileHash, language := "java".data }

-- =========================================================================
-- `extract_from_file`
-- =========================================================================

/-- The filesystem as seen by `extract_from_file`.  `read` models
`servers.utils.read_text_file`.

Modelled from the spec: `servers.utils.read_text_file` is not under
`src/`; per the spec (§6) it returns the file's decoded text or fails
with a not-found / not-decodable error, which `extract_from_file` catches
(`FileNotFoundError`, `UnicodeDecodeError`); `Except` carries `str(e)`
of the failure. -/
structure FSModel where
  pathExists : Str → Bool
  read : Str → Except Str Str

/-- `extract_from_file(file_path)` (extractor.py lines 1014-1059). -/
def extract_from_file (md5hex : Str → Str) (fs : FSModel) (p : Str) : ExtractionResult :=
  if ¬fs.pathExists p then
    { file_path := p, errors := ["File not found: ".data ++ p] }
  else
    match detect_language p with
    | none => { file_path := p, errors := ["Unsupported file type: ".data ++ p] }
    | some lang =>
      match fs.read p with
      | Except.error e =>
        { file_path := p, errors := ["Failed to read file: ".data ++ e] }
      | Except.ok content =>
        if lang = "typescript".data ∨ lang = "javascript".data then
          extract_typescript md5hex content p
        else if lang = "python".data then
          extract_python md5hex content p
        else if lang = "java".data then
          extract_java md5hex content p
        else
          { file_path := p, language := lang,
            errors := ["Extractor not implemented for: ".data ++ lang] }

-- =========================================================================
-- `extract_from_directory`
-- =========================================================================

/-- One file met during the `os.walk` traversal (after directory pruning):
its base name, its path relative to the root, and its full path. -/
structure DirEntry where
  filename : Str
  relPath : Str
  path : Str
deriving DecidableEq, Repr

/-- Python dict assignment `m[k] = v` on an insertion-ordered
association list. -/
def dictInsert (m : List (Str × Str)) (k v : Str) : List (Str × Str) :=
  if m.any (fun p => p.1 = k) then
    m.map (fun p => if p.1 = k then (k, v) else p)
  else
    m ++ [(k, v)]

def dictLookup : List (Str × Str) → Str → Option Str
  | [], _ => none
  | (k', v) :: rest, k => if k' = k then some v else dictLookup rest k

/-- The aggregate being built by `extract_from_directory`. -/
structure DirResult where
  nodes : List CodeNode := []
  edges : List CodeEdge := []
  files_processed : Nat := 0
  files_skipped : Nat := 0
  errors : List Str := []
  file_hashes : List (Str × Str) := []
deriving DecidableEq, Repr

/-- The skip condition of the incremental branch (lines 1119-1124):
`rel_path in file_hashes and file_hashes[rel_path] == current_hash`. -/
def dirSkips (incremental : Bool) (prev : List (Str × Str))
    (hashOf : Str → Str) (f : DirEntry) : Bool :=
  incremental &&
    match dictLookup prev f.relPath with
    | some h => h = hashOf f.path
    | none => false

/-- The per-file body of the walk loop (lines 1110-1135).  `hashOf`
models `compute_file_hash` (md5 of the file bytes) and `extractOf`
models the `extract_from_file` call on the full path. -/
def dirStep (incremental : Bool) (prev : List (Str × Str))
    (hashOf : Str → Str) (extractOf : Str → ExtractionResult)
    (st : DirResult) (f : DirEntry) : DirResult :=
  if (alookup (toLowerStr (splitextExt f.filename)) SUPPORTED_EXTENSIONS).isNone then
    st
  else if dirSkips incremental prev hashOf f then
    { st with files_skipped := st.files_skipped + 1,
              file_hashes := dictInsert st.file_hashes f.relPath (hashOf f.path) }
  else
    let r := extractOf f.path
    if r.errors ≠ [] then
      { st with errors := st.errors ++ r.errors }
    else
      { st with nodes := st.nodes ++ r.nodes,
                edges := st.edges ++ r.edges,
                file_hashes := dictInsert st.file_hashes f.relPath r.file_hash,
                files_processed := st.files_processed + 1 }

/-- `extract_from_directory(directory, incremental, project, file_hashes)`
(lines 1062-1144).  The walk itself is modelled by the list of files it
visits (in traversal order, ignored directories already pruned);
`dirExists` models `os.path.isdir(directory)`. -/
def extract_from_directory (dirExists : Bool) (files : List DirEntry)
    (incremental : Bool) (prev : List (Str × Str))
    (hashOf : Str → Str) (extractOf : Str → ExtractionResult)
    (dirName : Str) : DirResult :=
  if ¬dirExists then
    { errors := ["Directory not found: ".data ++ dirName] }
  else
    files.foldl (dirStep incremental prev hashOf extractOf) {}

-- =========================================================================
-- Concrete inputs used by the scenario theorems and counterexamples
-- =========================================================================

/-- Scenario A source: package `a.b`, outer class `C`, inner class `D`,
zero-argument method `m` inside `D`. -/
def scenarioA_content : Str :=
  "package a.b;\npublic class C \x7b\n    public class D \x7b\n        public void m() \x7b\n        \x7d\n    \x7d\n\x7d\n".data

/-- Scenario B source: one wildcard and one specific import. -/
def scenarioB_content : Str :=
  "import a.b.*;\nimport a.b.File;\n".data

/-- Two same-named overloaded Java methods in one class. -/
def overload_content : Str :=
  "class C \x7b\n    void m(int a) \x7b\n    \x7d\n    void m(long b) \x7b\n    \x7d\n\x7d\n".data

/-- A TypeScript class implementing a generic interface. -/
def ts_generic_content : Str :=
  "class A implements B<T> \x7b\n\x7d\n".data

/-- A brace-delimited block whose body holds an unbalanced closing brace
inside a double-quoted literal. -/
def quote_brace_lines : List Str :=
  ["f() \x7b".data, "x = \"\x7d\";".data, "\x7d".data]

/-- The node kinds of the data model (spec §3). -/
def nodeKindStrs : List Str :=
  ["file".data, "class".data, "interface".data, "enum".data,
   "annotation".data, "function".data, "type".data, "constant".data,
   "variable".data]

/-- Sample md5 stand-in for concrete evaluations (no claim depends on
the digest's value). -/
def md5sample : Str → Str := fun _ => []

/-- Relation between a directory-walk state without a skipped file and
the state with it: identical except that the skipped counter is one
higher and the hash table additionally maps `rk` to `hv`. -/
def SkipInv (rk hv : Str) (st1 st2 : DirResult) : Prop :=
  st2.nodes = st1.nodes ∧ st2.edges = st1.edges ∧ st2.errors = st1.errors ∧
  st2.files_processed = st1.files_processed ∧
  st2.files_skipped = st1.files_skipped + 1 ∧
  (∀ k, k ≠ rk → dictLookup st2.file_hashes k = dictLookup st1.file_hashes k) ∧
  dictLookup st2.file_hashes rk = some hv

/-- Relation between a directory-walk state without a failed file and
the state with it: identical in everything but the error list. -/
def DropInv (st1 st2 : DirResult) : Prop :=
  st2.nodes = st1.nodes ∧ st2.edges = st1.edges ∧
  st2.files_processed = st1.files_processed ∧
  st2.files_skipped = st1.files_skipped ∧
  st2.file_hashes = st1.file_hashes

-- =========================================================================
-- Theorems
-- =========================================================================

/-- C7: single-file extraction failure modes.  If the path does not
exist, the result has zero nodes, zero edges and exactly the one
file-not-found error; if the path exists but its extension is not in the
supported set, zero nodes and exactly one unsupported-language error; if
the content cannot be decoded, zero nodes and exactly one read-failure
error.  The embedding is a total function, so no exception escapes. -/
theorem extract_from_file_failure_modes (md5hex : Str → Str) (fs : FSModel) (p : Str) :
    (fs.pathExists p = false →
      (extract_from_file md5hex fs p).nodes = [] ∧
      (extract_from_file md5hex fs p).edges = [] ∧
      (extract_from_file md5hex fs p).errors = ["File not found: ".data ++ p]) ∧
    (fs.pathExists p = true → detect_language p = none →
      (extract_from_file md5hex fs p).nodes = [] ∧
      (extract_from_file md5hex fs p).edges = [] ∧
      (extract_from_file md5hex fs p).errors = ["Unsupported file type: ".data ++ p]) ∧
    (∀ lang err, fs.pathExists p = true → detect_language p = some lang →
      fs.read p = Except.error err →
      (extract_from_file md5hex fs p).nodes = [] ∧
      (extract_from_file md5hex fs p).edges = [] ∧
      (extract_from_file md5hex fs p).errors = ["Failed to read file: ".data ++ err]) := by
  refine ⟨fun h => ?_, fun h1 h2 => ?_, fun lang err h1 h2 h3 => ?_⟩
  · simp [extract_from_file, h]
  · simp [extract_from_file, h1, h2]
  · simp [extract_from_file, h1, h2, h3]

theorem extract_from_file_failure_modes_witness :
    (extract_from_file md5sample ⟨fun _ => false, fun _ => Except.error []⟩ "a.ts".data).nodes = [] ∧
    (extract_from_file md5sample ⟨fun _ => false, fun _ => Except.error []⟩ "a.ts".data).edges = [] ∧
    (extract_from_file md5sample ⟨fun _ => false, fun _ => Except.error []⟩ "a.ts".data).errors =
      ["File not found: ".data ++ "a.ts".data] :=
  (extract_from_file_failure_modes md5sample ⟨fun _ => false, fun _ => Except.error []⟩
    "a.ts".data).1 rfl

/-- C8: per-language extraction is deterministic: identical
(content, file_path) inputs give identical node-id lists and identical
edge (from_id, to_id, kind) lists.  The extractors are pure functions of
content and path (the only other input, `md5hex`, is the fixed digest
primitive). -/
theorem extraction_idempotent (md5hex : Str → Str) (c1 c2 p1 p2 : Str)
    (hc : c1 = c2) (hp : p1 = p2) :
    ((extract_typescript md5hex c1 p1).nodes.map (fun n => n.id) =
       (extract_typescript md5hex c2 p2).nodes.map (fun n => n.id) ∧
     (extract_typescript md5hex c1 p1).edges.map (fun e => (e.from_id, e.to_id, e.kind)) =
       (extract_typescript md5hex c2 p2).edges.map (fun e => (e.from_id, e.to_id, e.kind))) ∧
    ((extract_python md5hex c1 p1).nodes.map (fun n => n.id) =
       (extract_python md5hex c2 p2).nodes.map (fun n => n.id) ∧
     (extract_python md5hex c1 p1).edges.map (fun e => (e.from_id, e.to_id, e.kind)) =
       (extract_python md5hex c2 p2).edges.map (fun e => (e.from_id, e.to_id, e.kind))) ∧
    ((extract_java md5hex c1 p1).nodes.map (fun n => n.id) =
       (extract_java md5hex c2 p2).nodes.map (fun n => n.id) ∧
     (extract_java md5hex c1 p1).edges.map (fun e => (e.from_id, e.to_id, e.kind)) =
       (extract_java md5hex c2 p2).edges.map (fun e => (e.from_id, e.to_id, e.kind))) := by
  subst hc
  subst hp
  exact ⟨⟨rfl, rfl⟩, ⟨rfl, rfl⟩, ⟨rfl, rfl⟩⟩

theorem extraction_idempotent_witness :
    (extract_java md5sample scenarioB_content "Test.java".data).nodes.map (fun n => n.id) =
      (extract_java md5sample scenarioB_content "Test.java".data).nodes.map (fun n => n.id) :=
  ((extraction_idempotent md5sample scenarioB_content scenarioB_content
    "Test.java".data "Test.java".data rfl rfl).2.2).1

/-- C5 (Scenario B): two Java imports, one wildcard `a.b.*` and one
specific `a.b.File`, yield exactly one imports edge targeting the
package-level id `package.a.b` and one targeting the class-level id
`class.a.b.File`, both from the file node and both with confidence 1. -/
theorem java_import_scenario :
    (extract_java md5sample scenarioB_content "Test.java".data).edges =
      [{ from_id := "file.Test.java".data, to_id := "package.a.b".data,
         kind := "imports".data, line_number := some 1, confidence := 1 },
       { from_id := "file.Test.java".data, to_id := "class.a.b.File".data,
         kind := "imports".data, line_number := some 2, confidence := 1 }] ∧
    (extract_java md5sample scenarioB_content "Test.java".data).nodes.map (fun n => n.id) =
      ["file.Test.java".data] := by
  decide

/-- C9 counterexample: two overloaded Java methods `m` receive the same
unqualified node id `function.T.java:m`, so one batch holds duplicate
node ids. -/
theorem java_overload_ids_collide :
    ¬ ((extract_java md5sample overload_content "T.java".data).nodes.map
        (fun n => n.id)).Nodup := by
  decide

/-- C6 counterexample: the TypeScript `implements` loop uses the token
verbatim, so a generic argument list survives into the target id
(`interface.B<T>`), not the generic-stripped `interface.B` the claim
requires. -/
theorem ts_implements_keeps_generics :
    ((extract_typescript md5sample ts_generic_content "a.ts".data).edges.filter
        (fun e => e.kind = "implements".data)).map (fun e => e.to_id) =
      ["interface.B<T>".data] ∧
    "interface.B<T>".data ≠ "interface.B".data := by
  decide

/-- C2 counterexample: on a block whose body has an unbalanced `}` inside
a double-quoted literal, the TS/JS resolver `_find_block_end` returns the
line of the quoted brace (2), not the line where the real, quote-aware
depth returns to zero (3). -/
theorem block_end_quoted_brace_miscount :
    find_block_end quote_brace_lines 0 = 2 ∧
    spec_block_end quote_brace_lines 0 = 3 ∧
    find_block_end quote_brace_lines 0 ≠ spec_block_end quote_brace_lines 0 := by
  decide

/-- Helper: one line of the Java scan equals the plain scan over the
literal-stripped line, threading the quote state. -/
theorem javaScanLine_eq_stripped (cs : Str) : ∀ (q : QuoteSt) (d : Int) (st : Bool),
    javaScanLine q d st cs =
      match tsScanLine d st (stripLine q cs).2 with
      | none => none
      | some p => some ((stripLine q cs).1, p) := by
  induction cs with
  | nil =>
    intro q d st
    simp [javaScanLine, stripLine, tsScanLine]
  | cons c cs ih =>
    intro q d st
    by_cases hesc : q.esc = true
    · simp [javaScanLine, stripLine, hesc, ih]
    · by_cases hbs : c = '\\'
      · simp [javaScanLine, stripLine, hesc, hbs, ih]
      · by_cases hdq : c = '"' ∧ q.inC = false
        · simp [javaScanLine, stripLine, hesc, hbs, hdq, ih]
        · by_cases hsq : c = '\'' ∧ q.inS = false
          · simp [javaScanLine, stripLine, hesc, hbs, hdq, hsq, ih]
          · by_cases hlit : q.inS = true ∨ q.inC = true
            · simp [javaScanLine, stripLine, hesc, hbs, hdq, hsq, hlit, ih]
            · by_cases hob : c = '{'
              · simp [javaScanLine, stripLine, tsScanLine, hesc, hbs, hdq, hsq, hlit, hob, ih]
              · by_cases hcb : c = '}'
                · by_cases hz : st = true ∧ d - 1 = 0
                  · simp [javaScanLine, stripLine, tsScanLine, hesc, hbs, hdq, hsq, hlit,
                          hob, hcb, hz]
                  · simp [javaScanLine, stripLine, tsScanLine, hesc, hbs, hdq, hsq, hlit,
                          hob, hcb, hz, ih]
                · simp [javaScanLine, stripLine, tsScanLine, hesc, hbs, hdq, hsq, hlit,
                        hob, hcb, ih]

/-- Helper: the full Java line loop equals the plain loop over the
stripped lines. -/
theorem javaGo_eq_stripped (ls : List Str) : ∀ (total i : Nat) (q : QuoteSt) (d : Int) (st : Bool),
    javaGo total i q d st ls = tsGo total i d st (stripLines q ls) := by
  induction ls with
  | nil =>
    intro total i q d st
    simp [javaGo, stripLines, tsGo]
  | cons l ls ih =>
    intro total i q d st
    simp only [stripLines, javaGo, tsGo]
    rw [javaScanLine_eq_stripped]
    cases h : tsScanLine d st (stripLine q l).2 with
    | none => simp
    | some p => simp [ih]

/-- C2 amended: quote-aware boundary resolution holds for the Java
resolver: on every input, `_find_java_block_end` returns exactly the line
where plain brace depth over the literal-stripped text returns to zero
after going positive (end of input giving the last line) — brace
characters inside quoted literals never affect it, with backslash escapes
consumed as a unit.  (The TS/JS `_find_block_end` instead counts every
brace, including quoted ones; see the counterexample.) -/
theorem find_java_block_end_quote_aware (lines : List Str) (start : Nat) :
    find_java_block_end lines start = spec_block_end lines start :=
  javaGo_eq_stripped (lines.drop start) lines.length start initQuoteSt 0 false

/-- Helper: splitting at the first dot is unambiguous when neither prefix
contains a dot. -/
theorem append_dot_inj : ∀ (k1 : Str), '.' ∉ k1 → ∀ (k2 : Str), '.' ∉ k2 →
    ∀ (r1 r2 : Str), k1 ++ '.' :: r1 = k2 ++ '.' :: r2 → k1 = k2 ∧ r1 = r2 := by
  intro k1
  induction k1 with
  | nil =>
    intro _ k2 h2 r1 r2 heq
    cases k2 with
    | nil => simpa using heq
    | cons b k2' =>
      simp only [List.nil_append, List.cons_append] at heq
      injection heq with hb _
      subst hb
      exact absurd (List.mem_cons_self _ _) h2
  | cons a k1' ih =>
    intro h1 k2 h2 r1 r2 heq
    cases k2 with
    | nil =>
      simp only [List.cons_append, List.nil_append] at heq
      injection heq with ha _
      subst ha
      exact absurd (List.mem_cons_self _ _) h1
    | cons b k2' =>
      simp only [List.cons_append] at heq
      injection heq with hab rest
      have h1' : '.' ∉ k1' := fun hm => h1 (List.mem_cons_of_mem _ hm)
      have h2' : '.' ∉ k2' := fun hm => h2 (List.mem_cons_of_mem _ hm)
      obtain ⟨hk, hr⟩ := ih h1' k2' h2' r1 r2 rest
      exact ⟨by rw [hab, hk], hr⟩

/-- Helper: over one file path, `make_node_id` is injective in the
(kind, optional qualified name) pair, for the data model's kinds and
nonempty names. -/
theorem make_node_id_inj (p : Str) (k1 k2 : Str) (n1 n2 : Option Str)
    (hk1 : k1 ∈ nodeKindStrs) (hk2 : k2 ∈ nodeKindStrs)
    (hn1 : n1 ≠ some []) (hn2 : n2 ≠ some [])
    (heq : make_node_id k1 p n1 = make_node_id k2 p n2) :
    k1 = k2 ∧ n1 = n2 := by
  have hd1 : '.' ∉ k1 := by fin_cases hk1 <;> decide
  have hd2 : '.' ∉ k2 := by fin_cases hk2 <;> decide
  cases n1 with
  | none =>
    cases n2 with
    | none =>
      simp only [make_node_id] at heq
      exact ⟨(append_dot_inj k1 hd1 k2 hd2 p p heq).1, rfl⟩
    | some n =>
      have hne : n.isEmpty = false := by
        cases n with
        | nil => exact absurd rfl hn2
        | cons c cs => rfl
      simp only [make_node_id, hne] at heq
      rw [List.append_assoc, List.cons_append] at heq
      have := (append_dot_inj k1 hd1 k2 hd2 _ _ heq).2
      have hlen := congrArg List.length this
      simp at hlen
  | some n =>
    have hne : n.isEmpty = false := by
      cases n with
      | nil => exact absurd rfl hn1
      | cons c cs => rfl
    cases n2 with
    | none =>
      simp only [make_node_id, hne] at heq
      rw [List.append_assoc, List.cons_append] at heq
      have := (append_dot_inj k1 hd1 k2 hd2 _ _ heq).2
      have hlen := congrArg List.length this
      simp at hlen
    | some n2' =>
      have hne2 : n2'.isEmpty = false := by
        cases n2' with
        | nil => exact absurd rfl hn2
        | cons c cs => rfl
      simp only [make_node_id, hne, hne2] at heq
      rw [List.append_assoc, List.cons_append, List.append_assoc, List.cons_append] at heq
      obtain ⟨hk, hr⟩ := append_dot_inj k1 hd1 k2 hd2 _ _ heq
      have := List.append_cancel_left hr
      injection this with _ hn
      exact ⟨hk, by rw [hn]⟩

/-- C9 amended: within one file's batch, node ids are pairwise distinct
as long as the nodes' (kind, id-qualified-name) pairs are pairwise
distinct; declarations that share kind and qualified name (e.g. the
overloaded Java methods of the counterexample, whose method ids use the
bare name) receive colliding ids. -/
theorem batch_node_ids_nodup (p : Str) (items : List (Str × Option Str))
    (hk : ∀ i ∈ items, i.1 ∈ nodeKindStrs)
    (hn : ∀ i ∈ items, i.2 ≠ some [])
    (hd : items.Nodup) :
    (items.map (fun i => make_node_id i.1 p i.2)).Nodup := by
  refine List.Nodup.map_on ?_ hd
  intro x hx y hy hxy
  obtain ⟨hk', hn'⟩ := make_node_id_inj p x.1 y.1 x.2 y.2 (hk x hx) (hk y hy)
    (hn x hx) (hn y hy) hxy
  exact Prod.ext hk' hn'

theorem batch_node_ids_nodup_witness :
    ((([("class".data, some "A".data), ("function".data, some "A".data)] :
        List (Str × Option Str)).map
      (fun i => make_node_id i.1 "f.java".data i.2)).Nodup) :=
  batch_node_ids_nodup "f.java".data _ (by decide) (by decide) (by decide)

/-- Helper: the first segment of a split contains no separator. -/
theorem splitOnCh_ne_nil (sep : Char) (s : Str) : splitOnCh sep s ≠ [] := by
  cases s with
  | nil => simp [splitOnCh]
  | cons c cs =>
    by_cases h : (c == sep) = true
    · simp [splitOnCh, h]
    · cases hs : splitOnCh sep cs with
      | nil => simp [splitOnCh, h, hs]
      | cons l ls => simp [splitOnCh, h, hs]

theorem mem_splitOnCh_head (sep : Char) (s : Str) : sep ∉ (splitOnCh sep s).headD [] := by
  induction s with
  | nil => simp [splitOnCh]
  | cons c cs ih =>
    by_cases h : (c == sep) = true
    · simp [splitOnCh, h]
    · cases hs : splitOnCh sep cs with
      | nil => exact absurd hs (splitOnCh_ne_nil sep cs)
      | cons l ls =>
        rw [hs] at ih
        simp only [List.headD] at ih
        simp only [splitOnCh, h, hs]
        simp only [List.headD, Bool.false_eq_true, if_false, List.mem_cons, not_or]
        exact ⟨fun hh => h (by simp [hh]), ih⟩

theorem mem_stripStr (c : Char) (s : Str) (h : c ∈ stripStr s) : c ∈ s := by
  unfold stripStr at h
  rw [List.mem_reverse] at h
  have h2 : c ∈ (s.dropWhile isSpaceCh).reverse := (List.dropWhile_sublist _).mem h
  rw [List.mem_reverse] at h2
  exact (List.dropWhile_sublist _).mem h2

/-- Helper: generic stripping leaves no `<` in the token. -/
theorem javaGenericStrip_no_lt (tok : Str) : '<' ∉ javaGenericStrip tok := by
  intro h
  exact mem_splitOnCh_head '<' (stripStr tok) (mem_stripStr _ _ h)

theorem length_filterMap_eq {α β : Type} (f : α → Option β) (l : List α) :
    (l.filterMap f).length = (l.filter (fun x => (f x).isSome)).length := by
  induction l with
  | nil => rfl
  | cons a l ih =>
    cases h : f a <;> simp [List.filterMap_cons, h, List.filter_cons, ih]

/-- Helper: shape of the edges produced by the Java implements loops. -/
theorem javaImplementsEdges_mem (fromId clause : Str) (ln : Nat) (e : CodeEdge)
    (he : e ∈ javaImplementsEdges fromId clause ln) :
    e.kind = "implements".data ∧ e.confidence = (mkRat 4 5) ∧ e.from_id = fromId ∧
    e.line_number = some ln ∧
    ∃ tok ∈ splitOnCh ',' clause,
      e.to_id = "interface.".data ++ javaGenericStrip tok ∧ '<' ∉ e.to_id := by
  simp only [javaImplementsEdges, List.mem_filterMap] at he
  obtain ⟨tok, htok, heq⟩ := he
  by_cases hemp : (javaGenericStrip tok).isEmpty = true
  · simp [hemp] at heq
  · rw [if_neg hemp] at heq
    injection heq with heq
    subst heq
    refine ⟨rfl, rfl, rfl, rfl, tok, htok, rfl, ?_⟩
    intro hmem
    rcases List.mem_append.mp hmem with h1 | h2
    · exact absurd h1 (by decide)
    · exact javaGenericStrip_no_lt tok h2

theorem javaImplementsEdges_length (fromId clause : Str) (ln : Nat) :
    (javaImplementsEdges fromId clause ln).length =
      ((splitOnCh ',' clause).filter
        (fun tok => !(javaGenericStrip tok).isEmpty)).length := by
  simp only [javaImplementsEdges]
  rw [length_filterMap_eq]
  congr 1
  apply List.filter_congr
  intro tok _
  by_cases h : (javaGenericStrip tok).isEmpty = true <;> simp [h]

theorem javaIfaceExtendsEdges_mem (fromId clause : Str) (ln : Nat) (e : CodeEdge)
    (he : e ∈ javaIfaceExtendsEdges fromId clause ln) :
    e.kind = "extends".data ∧ e.confidence = (mkRat 4 5) ∧ e.from_id = fromId ∧
    e.line_number = some ln ∧
    ∃ tok ∈ splitOnCh ',' clause,
      e.to_id = "interface.".data ++ javaGenericStrip tok ∧ '<' ∉ e.to_id := by
  simp only [javaIfaceExtendsEdges, List.mem_filterMap] at he
  obtain ⟨tok, htok, heq⟩ := he
  by_cases hemp : (javaGenericStrip tok).isEmpty = true
  · simp [hemp] at heq
  · rw [if_neg hemp] at heq
    injection heq with heq
    subst heq
    refine ⟨rfl, rfl, rfl, rfl, tok, htok, rfl, ?_⟩
    intro hmem
    rcases List.mem_append.mp hmem with h1 | h2
    · exact absurd h1 (by decide)
    · exact javaGenericStrip_no_lt tok h2

theorem javaIfaceExtendsEdges_length (fromId clause : Str) (ln : Nat) :
    (javaIfaceExtendsEdges fromId clause ln).length =
      ((splitOnCh ',' clause).filter
        (fun tok => !(javaGenericStrip tok).isEmpty)).length := by
  simp only [javaIfaceExtendsEdges]
  rw [length_filterMap_eq]
  congr 1
  apply List.filter_congr
  intro tok _
  by_cases h : (javaGenericStrip tok).isEmpty = true <;> simp [h]

theorem tsImplementsEdges_mem (fromId : Str) (ln : Nat) (clause : Str) (e : CodeEdge)
    (he : e ∈ tsImplementsEdges fromId ln clause) :
    e.kind = "implements".data ∧ e.confidence = (mkRat 4 5) ∧ e.from_id = fromId ∧
    e.line_number = some ln ∧
    ∃ tok ∈ splitOnCh ',' clause, e.to_id = "interface.".data ++ stripStr tok := by
  simp only [tsImplementsEdges, List.mem_filterMap] at he
  obtain ⟨tok, htok, heq⟩ := he
  by_cases hemp : (stripStr tok).isEmpty = true
  · simp [hemp] at heq
  · rw [if_neg hemp] at heq
    injection heq with heq
    subst heq
    exact ⟨rfl, rfl, rfl, rfl, tok, htok, rfl⟩

theorem tsImplementsEdges_length (fromId : Str) (ln : Nat) (clause : Str) :
    (tsImplementsEdges fromId ln clause).length =
      ((splitOnCh ',' clause).filter (fun tok => !(stripStr tok).isEmpty)).length := by
  simp only [tsImplementsEdges]
  rw [length_filterMap_eq]
  congr 1
  apply List.filter_congr
  intro tok _
  by_cases h : (stripStr tok).isEmpty = true <;> simp [h]

theorem pyExtendsEdges_mem (fromId : Str) (ln : Nat) (bases : Str) (e : CodeEdge)
    (he : e ∈ pyExtendsEdges fromId ln bases) :
    e.kind = "extends".data ∧ e.confidence = (mkRat 4 5) ∧ e.from_id = fromId ∧
    e.line_number = some ln ∧
    ∃ tok ∈ splitOnCh ',' bases,
      stripStr tok ≠ "object".data ∧ e.to_id = "class.".data ++ stripStr tok := by
  simp only [pyExtendsEdges, List.mem_filterMap] at he
  obtain ⟨tok, htok, heq⟩ := he
  by_cases hcond : ((stripStr tok).isEmpty = true ∨ stripStr tok = "object".data)
  · rw [if_pos hcond] at heq
    exact absurd heq (by simp)
  · rw [if_neg hcond] at heq
    injection heq with heq
    subst heq
    push_neg at hcond
    exact ⟨rfl, rfl, rfl, rfl, tok, htok, hcond.2, rfl⟩

theorem pyExtendsEdges_length (fromId : Str) (ln : Nat) (bases : Str) :
    (pyExtendsEdges fromId ln bases).length =
      ((splitOnCh ',' bases).filter
        (fun tok => !(stripStr tok).isEmpty && !(stripStr tok == "object".data))).length := by
  simp only [pyExtendsEdges]
  rw [length_filterMap_eq]
  congr 1
  apply List.filter_congr
  intro tok _
  by_cases h1 : (stripStr tok).isEmpty = true
  · simp [h1]
  · by_cases h2 : stripStr tok = "object".data <;> simp [h1, h2]

theorem javaClassExtendsEdge_shape (fromId extTxt : Str) (ln : Nat) :
    (javaClassExtendsEdge fromId extTxt ln).kind = "extends".data ∧
    (javaClassExtendsEdge fromId extTxt ln).confidence = (mkRat 4 5) ∧
    (javaClassExtendsEdge fromId extTxt ln).from_id = fromId ∧
    (javaClassExtendsEdge fromId extTxt ln).to_id = "class.".data ++ javaGenericStrip extTxt ∧
    '<' ∉ (javaClassExtendsEdge fromId extTxt ln).to_id := by
  refine ⟨rfl, rfl, rfl, rfl, ?_⟩
  intro hmem
  rcases List.mem_append.mp hmem with h1 | h2
  · exact absurd h1 (by decide)
  · exact javaGenericStrip_no_lt extTxt h2

/-- Helper: a maximal munch only captures characters of its class. -/
theorem munch1_mem (p : Char → Bool) (s cap rest : Str)
    (h : munch1 p s = some (cap, rest)) : ∀ c ∈ cap, p c = true := by
  simp only [munch1] at h
  split at h
  · exact absurd h (by simp)
  · injection h with h2
    have hc : cap = s.takeWhile p := (congrArg Prod.fst h2).symm
    intro c hmem
    rw [hc] at hmem
    exact List.mem_takeWhile_imp hmem

/-- Helper: a taken optional clause only captures characters of its
class. -/
theorem optClause1_mem (kw : String) (cls : Char → Bool) (s cap rest : Str)
    (h : optClause1 kw cls s = (some cap, rest)) : ∀ c ∈ cap, cls c = true := by
  unfold optClause1 at h
  cases h1 : reqSpaces1 s with
  | none => simp [h1] at h
  | some r =>
    simp only [h1] at h
    cases h2 : litStr kw.data r with
    | none => simp [h2] at h
    | some r2 =>
      simp only [h2] at h
      cases h3 : reqSpaces1 r2 with
      | none => simp [h3] at h
      | some r3 =>
        simp only [h3] at h
        cases h4 : munch1 cls r3 with
        | none => simp [h4] at h
        | some pr =>
          simp only [h4] at h
          cases pr with
          | mk cap2 r4 =>
            have hcap : cap2 = cap := by
              have := congrArg Prod.fst h
              simpa using this
            intro c hmem
            exact munch1_mem cls r3 cap2 r4 h4 c (hcap ▸ hmem)

/-- Helper: the TS class pattern captures its extends supertype with
`(\w+)`, so the token consists of word characters only. -/
theorem matchTsClass_exts_wordCh (s : Str) (g : TsClassM) (rest : Str)
    (h : matchTsClass s = some (g, rest)) :
    ∀ tok, g.exts = some tok → ∀ c ∈ tok, isWordCh c = true := by
  unfold matchTsClass at h
  cases h1 : litStr "class".data (optKw "abstract" (optKw "export" s)) with
  | none => simp [h1] at h
  | some s2 =>
    simp only [h1] at h
    cases h2 : reqSpaces1 s2 with
    | none => simp [h2] at h
    | some s3 =>
      simp only [h2] at h
      cases h3 : munch1 isWordCh s3 with
      | none => simp [h3] at h
      | some pr =>
        simp only [h3] at h
        cases pr with
        | mk nm s4 =>
          cases h4 : optClause1 "extends" isWordCh s4 with
          | mk extsv s5 =>
            simp only [h4] at h
            cases h5 : optClause1 "implements" (fun c => c != '{') s5 with
            | mk implsv s6 =>
              simp only [h5] at h
              injection h with h6
              have hg : g = ⟨nm, extsv, implsv⟩ := (congrArg Prod.fst h6).symm
              intro tok htok
              rw [hg] at htok
              exact optClause1_mem "extends" isWordCh s4 tok s5 (htok ▸ h4)

theorem tsClassExtendsEdge_shape (fromId extendsTok : Str) (ln : Nat) :
    (tsClassExtendsEdge fromId extendsTok ln).kind = "extends".data ∧
    (tsClassExtendsEdge fromId extendsTok ln).confidence = (mkRat 4 5) ∧
    (tsClassExtendsEdge fromId extendsTok ln).from_id = fromId ∧
    (tsClassExtendsEdge fromId extendsTok ln).line_number = some ln ∧
    (tsClassExtendsEdge fromId extendsTok ln).to_id = "class.".data ++ extendsTok ∧
    ((∀ c ∈ extendsTok, isWordCh c = true) →
      '<' ∉ (tsClassExtendsEdge fromId extendsTok ln).to_id) := by
  refine ⟨rfl, rfl, rfl, rfl, rfl, ?_⟩
  intro hw hmem
  rcases List.mem_append.mp hmem with h1 | h2
  · exact absurd h1 (by decide)
  · exact absurd (hw '<' h2) (by decide)

/-- C6 amended: every emitted extends/implements edge goes from the
declaring type's node to a bare-name target id (a kind prefix plus the
token-derived name, no file qualification) with confidence exactly 0.8,
one edge per comma-separated token with a nonempty (admissible) name.
Generic parameters are stripped from the token in the Java loops (the
target never contains `<`), the TypeScript class extends edge carries
the single word-character token captured by the pattern (so its target
can hold no generic suffix either), while the TypeScript implements loop
and the Python base-class loop use the whitespace-stripped token
verbatim — the counterexample shows a TypeScript target id that keeps
its generic suffix. -/
theorem supertype_edges_shape :
    (∀ (fromId clause : Str) (ln : Nat) (e : CodeEdge),
        e ∈ javaImplementsEdges fromId clause ln →
        e.kind = "implements".data ∧ e.confidence = (mkRat 4 5) ∧ e.from_id = fromId ∧
        e.line_number = some ln ∧
        ∃ tok ∈ splitOnCh ',' clause,
          e.to_id = "interface.".data ++ javaGenericStrip tok ∧ '<' ∉ e.to_id) ∧
    (∀ (fromId clause : Str) (ln : Nat) (e : CodeEdge),
        e ∈ javaIfaceExtendsEdges fromId clause ln →
        e.kind = "extends".data ∧ e.confidence = (mkRat 4 5) ∧ e.from_id = fromId ∧
        e.line_number = some ln ∧
        ∃ tok ∈ splitOnCh ',' clause,
          e.to_id = "interface.".data ++ javaGenericStrip tok ∧ '<' ∉ e.to_id) ∧
    (∀ (fromId extTxt : Str) (ln : Nat),
        (javaClassExtendsEdge fromId extTxt ln).kind = "extends".data ∧
        (javaClassExtendsEdge fromId extTxt ln).confidence = (mkRat 4 5) ∧
        (javaClassExtendsEdge fromId extTxt ln).from_id = fromId ∧
        (javaClassExtendsEdge fromId extTxt ln).to_id =
          "class.".data ++ javaGenericStrip extTxt ∧
        '<' ∉ (javaClassExtendsEdge fromId extTxt ln).to_id) ∧
    (∀ (fromId : Str) (ln : Nat) (clause : Str) (e : CodeEdge),
        e ∈ tsImplementsEdges fromId ln clause →
        e.kind = "implements".data ∧ e.confidence = (mkRat 4 5) ∧ e.from_id = fromId ∧
        e.line_number = some ln ∧
        ∃ tok ∈ splitOnCh ',' clause, e.to_id = "interface.".data ++ stripStr tok) ∧
    (∀ (fromId extendsTok : Str) (ln : Nat),
        (tsClassExtendsEdge fromId extendsTok ln).kind = "extends".data ∧
        (tsClassExtendsEdge fromId extendsTok ln).confidence = (mkRat 4 5) ∧
        (tsClassExtendsEdge fromId extendsTok ln).from_id = fromId ∧
        (tsClassExtendsEdge fromId extendsTok ln).line_number = some ln ∧
        (tsClassExtendsEdge fromId extendsTok ln).to_id = "class.".data ++ extendsTok ∧
        ((∀ c ∈ extendsTok, isWordCh c = true) →
          '<' ∉ (tsClassExtendsEdge fromId extendsTok ln).to_id)) ∧
    (∀ (s : Str) (g : TsClassM) (rest : Str), matchTsClass s = some (g, rest) →
        ∀ tok, g.exts = some tok → ∀ c ∈ tok, isWordCh c = true) ∧
    (∀ (fromId : Str) (ln : Nat) (bases : Str) (e : CodeEdge),
        e ∈ pyExtendsEdges fromId ln bases →
        e.kind = "extends".data ∧ e.confidence = (mkRat 4 5) ∧ e.from_id = fromId ∧
        e.line_number = some ln ∧
        ∃ tok ∈ splitOnCh ',' bases,
          stripStr tok ≠ "object".data ∧ e.to_id = "class.".data ++ stripStr tok) ∧
    (∀ (fromId clause : Str) (ln : Nat),
        (javaImplementsEdges fromId clause ln).length =
          ((splitOnCh ',' clause).filter
            (fun tok => !(javaGenericStrip tok).isEmpty)).length ∧
        (javaIfaceExtendsEdges fromId clause ln).length =
          ((splitOnCh ',' clause).filter
            (fun tok => !(javaGenericStrip tok).isEmpty)).length ∧
        (tsImplementsEdges fromId ln clause).length =
          ((splitOnCh ',' clause).filter (fun tok => !(stripStr tok).isEmpty)).length ∧
        (pyExtendsEdges fromId ln clause).length =
          ((splitOnCh ',' clause).filter
            (fun tok => !(stripStr tok).isEmpty &&
              !(stripStr tok == "object".data))).length) :=
  ⟨javaImplementsEdges_mem, javaIfaceExtendsEdges_mem, javaClassExtendsEdge_shape,
   tsImplementsEdges_mem, tsClassExtendsEdge_shape, matchTsClass_exts_wordCh,
   pyExtendsEdges_mem,
   fun fromId clause ln =>
     ⟨javaImplementsEdges_length fromId clause ln,
      javaIfaceExtendsEdges_length fromId clause ln,
      tsImplementsEdges_length fromId ln clause,
      pyExtendsEdges_length fromId ln clause⟩⟩

theorem supertype_edges_shape_witness :
    (⟨"x".data, "interface.B".data, "implements".data, some 3, (mkRat 4 5)⟩ : CodeEdge).kind
        = "implements".data ∧
    (⟨"x".data, "interface.B".data, "implements".data, some 3, (mkRat 4 5)⟩ : CodeEdge).confidence
        = (mkRat 4 5) ∧
    (⟨"x".data, "interface.B".data, "implements".data, some 3, (mkRat 4 5)⟩ : CodeEdge).from_id
        = "x".data ∧
    (⟨"x".data, "interface.B".data, "implements".data, some 3, (mkRat 4 5)⟩ : CodeEdge).line_number
        = some 3 ∧
    ∃ tok ∈ splitOnCh ',' "B<T>, C".data,
      (⟨"x".data, "interface.B".data, "implements".data, some 3, (mkRat 4 5)⟩ : CodeEdge).to_id
          = "interface.".data ++ javaGenericStrip tok ∧
      '<' ∉ (⟨"x".data, "interface.B".data, "implements".data, some 3, (mkRat 4 5)⟩ : CodeEdge).to_id :=
  supertype_edges_shape.1 "x".data "B<T>, C".data 3
    ⟨"x".data, "interface.B".data, "implements".data, some 3, (mkRat 4 5)⟩ (by decide)

/-- Helper: stable insertion keeps the list a permutation. -/
theorem insertByStart_perm (x : TypeRange) (l : List TypeRange) :
    (insertByStart x l).Perm (x :: l) := by
  induction l with
  | nil => exact List.Perm.refl _
  | cons y ys ih =>
    simp only [insertByStart]
    by_cases h : x.lineStart ≤ y.lineStart
    · rw [if_pos h]
    · rw [if_neg h]
      exact (ih.cons y).trans (List.Perm.swap x y ys)

theorem sortByStart_perm (l : List TypeRange) : (sortByStart l).Perm l := by
  induction l with
  | nil => exact List.Perm.refl _
  | cons x xs ih =>
    exact (insertByStart_perm x (sortByStart xs)).trans (ih.cons x)

theorem insertByStart_sorted (x : TypeRange) (l : List TypeRange)
    (h : l.Pairwise (fun a b => a.lineStart ≤ b.lineStart)) :
    (insertByStart x l).Pairwise (fun a b => a.lineStart ≤ b.lineStart) := by
  induction l with
  | nil => simp [insertByStart]
  | cons y ys ih =>
    simp only [insertByStart]
    rw [List.pairwise_cons] at h
    by_cases hxy : x.lineStart ≤ y.lineStart
    · rw [if_pos hxy]
      refine List.pairwise_cons.mpr ⟨?_, List.pairwise_cons.mpr ⟨h.1, h.2⟩⟩
      intro z hz
      rcases List.mem_cons.mp hz with rfl | hz'
      · exact hxy
      · exact le_trans hxy (h.1 z hz')
    · rw [if_neg hxy]
      refine List.pairwise_cons.mpr ⟨?_, ih h.2⟩
      intro z hz
      have hz2 := (insertByStart_perm x ys).mem_iff.mp hz
      rcases List.mem_cons.mp hz2 with rfl | hz'
      · omega
      · exact h.1 z hz'

theorem sortByStart_sorted (l : List TypeRange) :
    (sortByStart l).Pairwise (fun a b => a.lineStart ≤ b.lineStart) := by
  induction l with
  | nil => simp [sortByStart]
  | cons x xs ih => exact insertByStart_sorted x (sortByStart xs) ih

/-- Helper: on a start-sorted list, the first hit of a reversed `find?`
satisfies the predicate and has maximal start line among all hits. -/
theorem find_rev_max (p : TypeRange → Bool) (l : List TypeRange)
    (hl : l.Pairwise (fun a b => a.lineStart ≤ b.lineStart)) :
    ∀ t, l.reverse.find? p = some t →
      p t = true ∧ ∀ u ∈ l, p u = true → u.lineStart ≤ t.lineStart := by
  induction l using List.reverseRecOn with
  | nil => intro t ht; simp at ht
  | append_singleton l a ih =>
    intro t ht
    rw [List.reverse_append] at ht
    simp only [List.reverse_cons, List.reverse_nil, List.nil_append,
      List.singleton_append] at ht
    rw [List.pairwise_append] at hl
    by_cases hpa : p a = true
    · rw [List.find?_cons_of_pos _ hpa] at ht
      injection ht with ht
      rw [← ht]
      refine ⟨hpa, ?_⟩
      intro u hu _
      rcases List.mem_append.mp hu with hu' | hu'
      · exact hl.2.2 u hu' a (List.mem_singleton.mpr rfl)
      · rw [List.mem_singleton.mp hu']
    · rw [List.find?_cons_of_neg _ (by simp [hpa])] at ht
      obtain ⟨hpt, hmax⟩ := ih hl.1 t ht
      refine ⟨hpt, ?_⟩
      intro u hu hpu
      rcases List.mem_append.mp hu with hu' | hu'
      · exact hmax u hu' hpu
      · rw [List.mem_singleton.mp hu'] at hpu
        exact absurd hpu hpa

/-- C3 (Scenario A): on a Java source with package `a.b`, outer class `C`
holding inner class `D` holding zero-argument method `m`, extraction
yields exactly the three non-file nodes `C`, `D`, `m` and exactly the two
contains edges `C → D` and `D → m`; and in general the method loop's
containment lookup attributes to the innermost (maximal start line)
enclosing type whose span strictly contains the line, falling back to the
file (defines) exactly when no type span contains it. -/
theorem java_nested_scenario :
    (((extract_java md5sample scenarioA_content "Test.java".data).nodes.filter
        (fun n => n.kind ≠ "file".data)).map (fun n => (n.kind, n.name)) =
      [("class".data, "C".data), ("class".data, "D".data),
       ("function".data, "m".data)] ∧
    (extract_java md5sample scenarioA_content "Test.java".data).edges.filter
        (fun e => e.kind = "contains".data) =
      [{ from_id := "class.Test.java:a.b.C".data, to_id := "class.Test.java:a.b.D".data,
         kind := "contains".data, line_number := some 3 },
       { from_id := "class.Test.java:a.b.D".data, to_id := "function.Test.java:m".data,
         kind := "contains".data, line_number := some 4 }]) ∧
    (∀ (rs : List TypeRange) (ln : Nat) (t : TypeRange),
       javaFindContaining (sortByStart rs) ln = some t →
       (t.lineStart < ln ∧ ln < t.lineEnd) ∧
       ∀ u ∈ rs, u.lineStart < ln → ln < u.lineEnd → u.lineStart ≤ t.lineStart) ∧
    (∀ (rs : List TypeRange) (ln : Nat),
       javaFindContaining (sortByStart rs) ln = none →
       ∀ u ∈ rs, ¬(u.lineStart < ln ∧ ln < u.lineEnd)) := by
  refine ⟨by decide, ?_, ?_⟩
  · intro rs ln t ht
    have hspec := find_rev_max (fun u => u.lineStart < ln ∧ ln < u.lineEnd)
      (sortByStart rs) (sortByStart_sorted rs) t ht
    have hp : t.lineStart < ln ∧ ln < t.lineEnd := by
      have := hspec.1
      simpa using this
    refine ⟨hp, ?_⟩
    intro u hu h1 h2
    exact hspec.2 u ((sortByStart_perm rs).mem_iff.mpr hu) (by simp [h1, h2])
  · intro rs ln hnone u hu hcontra
    have := List.find?_eq_none.mp hnone u
      (List.mem_reverse.mpr ((sortByStart_perm rs).mem_iff.mpr hu))
    simp [hcontra.1, hcontra.2] at this

theorem java_nested_scenario_witness :
    ((⟨"D".data, "d".data, 2, 5⟩ : TypeRange).lineStart < 3 ∧
      3 < (⟨"D".data, "d".data, 2, 5⟩ : TypeRange).lineEnd) ∧
    ∀ u ∈ [(⟨"C".data, "c".data, 1, 6⟩ : TypeRange), ⟨"D".data, "d".data, 2, 5⟩],
      u.lineStart < 3 → 3 < u.lineEnd →
      u.lineStart ≤ (⟨"D".data, "d".data, 2, 5⟩ : TypeRange).lineStart :=
  java_nested_scenario.2.1 [⟨"C".data, "c".data, 1, 6⟩, ⟨"D".data, "d".data, 2, 5⟩] 3
    ⟨"D".data, "d".data, 2, 5⟩ (by decide)

/-- C4: a Java method match whose declared name equals an enclosing
type's name and whose return-type slot equals that same name contributes
no function node and no edge (the method loop drops it entirely);
likewise a match whose return-type slot is one of the reserved
control-flow keywords.  (The code's test is `name in type_names`, which
contains every extracted type name, in particular each enclosing one.) -/
theorem java_constructor_suppression (lines : List Str) (cleaned fp fileId : Str)
    (typeNames : List Str) (ranges : List TypeRange)
    (pre post : List ((JavaMethodM × Str) × Nat)) (m : (JavaMethodM × Str) × Nat)
    (hnames : ∀ t ∈ ranges, t.name ∈ typeNames)
    (h : ((∃ t ∈ ranges, t.name = m.1.1.name ∧
            t.lineStart < lineOfPos cleaned m.2 ∧ lineOfPos cleaned m.2 < t.lineEnd) ∧
          m.1.1.ret = m.1.1.name) ∨
         m.1.1.ret ∈ javaCtrlKeywords) :
    javaMethodPhase lines cleaned fp fileId typeNames ranges (pre ++ m :: post) =
      javaMethodPhase lines cleaned fp fileId typeNames ranges (pre ++ post) := by
  simp only [javaMethodPhase]
  rw [List.foldl_append, List.foldl_append, List.foldl_cons]
  congr 1
  dsimp only
  rcases h with ⟨⟨t, htmem, htname, ht1, ht2⟩, hret⟩ | hkw
  · have hin : m.1.1.name ∈ typeNames := htname ▸ hnames t htmem
    rw [if_pos ⟨hin, hret⟩]
  · by_cases hc1 : m.1.1.name ∈ typeNames ∧ m.1.1.ret = m.1.1.name
    · rw [if_pos hc1]
    · rw [if_neg hc1, if_pos hkw]

theorem java_constructor_suppression_witness :
    javaMethodPhase [] "a\nb\nc\nd\ne".data "F.java".data "file.F.java".data
        ["C".data] [⟨"C".data, "c".data, 1, 5⟩]
        ([] ++ ⟨⟨⟨"C".data, "C".data, [], none⟩, "text".data⟩, 2⟩ :: []) =
      javaMethodPhase [] "a\nb\nc\nd\ne".data "F.java".data "file.F.java".data
        ["C".data] [⟨"C".data, "c".data, 1, 5⟩] ([] ++ []) :=
  java_constructor_suppression [] "a\nb\nc\nd\ne".data "F.java".data "file.F.java".data
    ["C".data] [⟨"C".data, "c".data, 1, 5⟩] [] []
    ⟨⟨⟨"C".data, "C".data, [], none⟩, "text".data⟩, 2⟩ (by decide) (by decide)

theorem dictLookup_insert_self (m : List (Str × Str)) (k v : Str) :
    dictLookup (dictInsert m k v) k = some v := by
  induction m with
  | nil => simp [dictInsert, dictLookup]
  | cons a m ih =>
    by_cases ha : a.1 = k
    · simp [dictInsert, dictLookup, ha]
    · by_cases hm : m.any (fun p => p.1 = k)
      · have h1 : dictInsert (a :: m) k v = a :: dictInsert m k v := by
          simp [dictInsert, ha, hm]
        rw [h1]
        cases a with
        | mk a1 a2 => simpa [dictLookup, ha] using ih
      · have h1 : dictInsert (a :: m) k v = a :: dictInsert m k v := by
          simp [dictInsert, ha, hm]
        rw [h1]
        cases a with
        | mk a1 a2 => simpa [dictLookup, ha] using ih

theorem dictLookup_map_replace (m : List (Str × Str)) (k v k' : Str) (h : k' ≠ k) :
    dictLookup (m.map (fun p => if p.1 = k then (k, v) else p)) k' = dictLookup m k' := by
  induction m with
  | nil => rfl
  | cons a m ih =>
    cases a with
    | mk a1 a2 =>
      by_cases ha : a1 = k
      · have hkk : ¬(k = k') := fun hh => h hh.symm
        have ha' : ¬(a1 = k') := fun hh => h (hh.symm.trans ha)
        simp only [List.map_cons]
        rw [if_pos ha]
        simp [dictLookup, hkk, ha', ih]
      · simp only [List.map_cons]
        rw [if_neg ha]
        by_cases hk : a1 = k'
        · simp [dictLookup, hk]
        · simp [dictLookup, hk, ih]

theorem dictLookup_append_single_ne (m : List (Str × Str)) (k v k' : Str) (h : k' ≠ k) :
    dictLookup (m ++ [(k, v)]) k' = dictLookup m k' := by
  induction m with
  | nil =>
    have hkk : ¬(k = k') := fun hh => h hh.symm
    simp [dictLookup, hkk]
  | cons a m ih =>
    cases a with
    | mk a1 a2 =>
      by_cases ha : a1 = k'
      · simp [dictLookup, ha]
      · simp [dictLookup, ha, ih]

theorem dictLookup_insert_ne (m : List (Str × Str)) (k v k' : Str) (h : k' ≠ k) :
    dictLookup (dictInsert m k v) k' = dictLookup m k' := by
  by_cases hm : m.any (fun p => p.1 = k)
  · simp only [dictInsert, if_pos hm]
    exact dictLookup_map_replace m k v k' h
  · simp only [dictInsert, if_neg hm]
    exact dictLookup_append_single_ne m k v k' h

/-- Helper: the walk step on an unsupported extension is a no-op. -/
theorem dirStep_unsupported (incr : Bool) (prev : List (Str × Str)) (hashOf : Str → Str)
    (extractOf : Str → ExtractionResult) (st : DirResult) (f : DirEntry)
    (h1 : (alookup (toLowerStr (splitextExt f.filename)) SUPPORTED_EXTENSIONS).isNone = true) :
    dirStep incr prev hashOf extractOf st f = st := by
  simp [dirStep, h1]

theorem dirStep_skip (incr : Bool) (prev : List (Str × Str)) (hashOf : Str → Str)
    (extractOf : Str → ExtractionResult) (st : DirResult) (f : DirEntry)
    (h1 : (alookup (toLowerStr (splitextExt f.filename)) SUPPORTED_EXTENSIONS).isNone = false)
    (h2 : dirSkips incr prev hashOf f = true) :
    dirStep incr prev hashOf extractOf st f =
      { st with files_skipped := st.files_skipped + 1,
                file_hashes := dictInsert st.file_hashes f.relPath (hashOf f.path) } := by
  simp [dirStep, h1, h2]

theorem dirStep_err (incr : Bool) (prev : List (Str × Str)) (hashOf : Str → Str)
    (extractOf : Str → ExtractionResult) (st : DirResult) (f : DirEntry)
    (h1 : (alookup (toLowerStr (splitextExt f.filename)) SUPPORTED_EXTENSIONS).isNone = false)
    (h2 : dirSkips incr prev hashOf f = false)
    (h3 : (extractOf f.path).errors ≠ []) :
    dirStep incr prev hashOf extractOf st f =
      { st with errors := st.errors ++ (extractOf f.path).errors } := by
  simp [dirStep, h1, h2, h3]

theorem dirStep_ok (incr : Bool) (prev : List (Str × Str)) (hashOf : Str → Str)
    (extractOf : Str → ExtractionResult) (st : DirResult) (f : DirEntry)
    (h1 : (alookup (toLowerStr (splitextExt f.filename)) SUPPORTED_EXTENSIONS).isNone = false)
    (h2 : dirSkips incr prev hashOf f = false)
    (h3 : (extractOf f.path).errors = []) :
    dirStep incr prev hashOf extractOf st f =
      { st with nodes := st.nodes ++ (extractOf f.path).nodes,
                edges := st.edges ++ (extractOf f.path).edges,
                file_hashes := dictInsert st.file_hashes f.relPath (extractOf f.path).file_hash,
                files_processed := st.files_processed + 1 } := by
  simp [dirStep, h1, h2, h3]

/-- Helper: the walk step preserves the skipped-file relation for
entries with a different relative path. -/
theorem dirStep_skipInv (rk hv : Str) (incr : Bool) (prev : List (Str × Str))
    (hashOf : Str → Str) (extractOf : Str → ExtractionResult) (g : DirEntry)
    (hg : g.relPath ≠ rk) (st1 st2 : DirResult) (h : SkipInv rk hv st1 st2) :
    SkipInv rk hv (dirStep incr prev hashOf extractOf st1 g)
      (dirStep incr prev hashOf extractOf st2 g) := by
  obtain ⟨hn, he, herr, hp, hs, hlk, hrk⟩ := h
  have hgrk : ¬(rk = g.relPath) := fun hh => hg hh.symm
  by_cases h1 : (alookup (toLowerStr (splitextExt g.filename)) SUPPORTED_EXTENSIONS).isNone = true
  · rw [dirStep_unsupported incr prev hashOf extractOf st1 g h1,
        dirStep_unsupported incr prev hashOf extractOf st2 g h1]
    exact ⟨hn, he, herr, hp, hs, hlk, hrk⟩
  · have h1' : (alookup (toLowerStr (splitextExt g.filename)) SUPPORTED_EXTENSIONS).isNone = false := by
      cases hx : (alookup (toLowerStr (splitextExt g.filename)) SUPPORTED_EXTENSIONS).isNone
      · rfl
      · exact absurd hx h1
    by_cases h2 : dirSkips incr prev hashOf g = true
    · rw [dirStep_skip incr prev hashOf extractOf st1 g h1' h2,
          dirStep_skip incr prev hashOf extractOf st2 g h1' h2]
      refine ⟨hn, he, herr, hp, by simp [hs], ?_, ?_⟩
      · intro k hk
        by_cases hkg : k = g.relPath
        · subst hkg
          rw [dictLookup_insert_self, dictLookup_insert_self]
        · rw [dictLookup_insert_ne _ _ _ _ hkg, dictLookup_insert_ne _ _ _ _ hkg]
          exact hlk k hk
      · rw [dictLookup_insert_ne _ _ _ _ hgrk]
        exact hrk
    · have h2' : dirSkips incr prev hashOf g = false := by
        cases hx : dirSkips incr prev hashOf g
        · rfl
        · exact absurd hx h2
      by_cases h3 : (extractOf g.path).errors = []
      · rw [dirStep_ok incr prev hashOf extractOf st1 g h1' h2' h3,
            dirStep_ok incr prev hashOf extractOf st2 g h1' h2' h3]
        refine ⟨by simp [hn], by simp [he], herr, by simp [hp], by simp [hs], ?_, ?_⟩
        · intro k hk
          by_cases hkg : k = g.relPath
          · subst hkg
            rw [dictLookup_insert_self, dictLookup_insert_self]
          · rw [dictLookup_insert_ne _ _ _ _ hkg, dictLookup_insert_ne _ _ _ _ hkg]
            exact hlk k hk
        · rw [dictLookup_insert_ne _ _ _ _ hgrk]
          exact hrk
      · rw [dirStep_err incr prev hashOf extractOf st1 g h1' h2' h3,
            dirStep_err incr prev hashOf extractOf st2 g h1' h2' h3]
        exact ⟨hn, he, by simp [herr], hp, hs, hlk, hrk⟩

theorem dirRun_skipInv (rk hv : Str) (incr : Bool) (prev : List (Str × Str))
    (hashOf : Str → Str) (extractOf : Str → ExtractionResult) :
    ∀ (post : List DirEntry), (∀ g ∈ post, g.relPath ≠ rk) →
    ∀ st1 st2 : DirResult, SkipInv rk hv st1 st2 →
    SkipInv rk hv (post.foldl (dirStep incr prev hashOf extractOf) st1)
      (post.foldl (dirStep incr prev hashOf extractOf) st2) := by
  intro post
  induction post with
  | nil => intro _ st1 st2 h; exact h
  | cons g post ih =>
    intro hmem st1 st2 h
    rw [List.foldl_cons, List.foldl_cons]
    exact ih (fun x hx => hmem x (List.mem_cons_of_mem g hx)) _ _
      (dirStep_skipInv rk hv incr prev hashOf extractOf g
        (hmem g (List.mem_cons_self g post)) st1 st2 h)

theorem dirStep_dropInv (incr : Bool) (prev : List (Str × Str)) (hashOf : Str → Str)
    (extractOf : Str → ExtractionResult) (g : DirEntry)
    (st1 st2 : DirResult) (h : DropInv st1 st2) :
    DropInv (dirStep incr prev hashOf extractOf st1 g)
      (dirStep incr prev hashOf extractOf st2 g) := by
  obtain ⟨hn, he, hp, hs, hh⟩ := h
  by_cases h1 : (alookup (toLowerStr (splitextExt g.filename)) SUPPORTED_EXTENSIONS).isNone = true
  · rw [dirStep_unsupported incr prev hashOf extractOf st1 g h1,
        dirStep_unsupported incr prev hashOf extractOf st2 g h1]
    exact ⟨hn, he, hp, hs, hh⟩
  · have h1' : (alookup (toLowerStr (splitextExt g.filename)) SUPPORTED_EXTENSIONS).isNone = false := by
      cases hx : (alookup (toLowerStr (splitextExt g.filename)) SUPPORTED_EXTENSIONS).isNone
      · rfl
      · exact absurd hx h1
    by_cases h2 : dirSkips incr prev hashOf g = true
    · rw [dirStep_skip incr prev hashOf extractOf st1 g h1' h2,
          dirStep_skip incr prev hashOf extractOf st2 g h1' h2]
      exact ⟨hn, he, hp, by simp [hs], by simp [hh]⟩
    · have h2' : dirSkips incr prev hashOf g = false := by
        cases hx : dirSkips incr prev hashOf g
        · rfl
        · exact absurd hx h2
      by_cases h3 : (extractOf g.path).errors = []
      · rw [dirStep_ok incr prev hashOf extractOf st1 g h1' h2' h3,
            dirStep_ok incr prev hashOf extractOf st2 g h1' h2' h3]
        exact ⟨by simp [hn], by simp [he], by simp [hp], hs, by simp [hh]⟩
      · rw [dirStep_err incr prev hashOf extractOf st1 g h1' h2' h3,
            dirStep_err incr prev hashOf extractOf st2 g h1' h2' h3]
        exact ⟨hn, he, hp, hs, hh⟩

theorem dirRun_dropInv (incr : Bool) (prev : List (Str × Str)) (hashOf : Str → Str)
    (extractOf : Str → ExtractionResult) :
    ∀ (post : List DirEntry) (st1 st2 : DirResult), DropInv st1 st2 →
    DropInv (post.foldl (dirStep incr prev hashOf extractOf) st1)
      (post.foldl (dirStep incr prev hashOf extractOf) st2) := by
  intro post
  induction post with
  | nil => intro st1 st2 h; exact h
  | cons g post ih =>
    intro st1 st2 h
    rw [List.foldl_cons, List.foldl_cons]
    exact ih _ _ (dirStep_dropInv incr prev hashOf extractOf g st1 st2 h)

theorem dirRun_hashes_other (incr : Bool) (prev : List (Str × Str)) (hashOf : Str → Str)
    (extractOf : Str → ExtractionResult) (k : Str) :
    ∀ (files : List DirEntry), (∀ g ∈ files, g.relPath ≠ k) →
    ∀ st : DirResult,
      dictLookup (List.foldl (dirStep incr prev hashOf extractOf) st files).file_hashes k =
        dictLookup st.file_hashes k := by
  intro files
  induction files with
  | nil => intro _ st; rfl
  | cons g files ih =>
    intro hmem st
    rw [List.foldl_cons]
    rw [ih (fun x hx => hmem x (List.mem_cons_of_mem g hx))]
    have hgk : ¬(k = g.relPath) := fun hh => hmem g (List.mem_cons_self g files) hh.symm
    by_cases h1 : (alookup (toLowerStr (splitextExt g.filename)) SUPPORTED_EXTENSIONS).isNone = true
    · rw [dirStep_unsupported incr prev hashOf extractOf st g h1]
    · have h1' : (alookup (toLowerStr (splitextExt g.filename)) SUPPORTED_EXTENSIONS).isNone = false := by
        cases hx : (alookup (toLowerStr (splitextExt g.filename)) SUPPORTED_EXTENSIONS).isNone
        · rfl
        · exact absurd hx h1
      by_cases h2 : dirSkips incr prev hashOf g = true
      · rw [dirStep_skip incr prev hashOf extractOf st g h1' h2]
        exact dictLookup_insert_ne _ _ _ _ hgk
      · have h2' : dirSkips incr prev hashOf g = false := by
          cases hx : dirSkips incr prev hashOf g
          · rfl
          · exact absurd hx h2
        by_cases h3 : (extractOf g.path).errors = []
        · rw [dirStep_ok incr prev hashOf extractOf st g h1' h2' h3]
          exact dictLookup_insert_ne _ _ _ _ hgk
        · rw [dirStep_err incr prev hashOf extractOf st g h1' h2' h3]

theorem dirStep_congr_pt (incr : Bool) (prev : List (Str × Str)) (hashOf : Str → Str)
    (e1 e2 : Str → ExtractionResult) (st : DirResult) (g : DirEntry)
    (heq : e1 g.path = e2 g.path) :
    dirStep incr prev hashOf e1 st g = dirStep incr prev hashOf e2 st g := by
  simp only [dirStep, heq]

theorem dirRun_congr (incr : Bool) (prev : List (Str × Str)) (hashOf : Str → Str)
    (e1 e2 : Str → ExtractionResult) :
    ∀ (files : List DirEntry), (∀ g ∈ files, e1 g.path = e2 g.path) →
    ∀ st : DirResult,
      files.foldl (dirStep incr prev hashOf e1) st =
        files.foldl (dirStep incr prev hashOf e2) st := by
  intro files
  induction files with
  | nil => intro _ st; rfl
  | cons g files ih =>
    intro hmem st
    rw [List.foldl_cons, List.foldl_cons,
        dirStep_congr_pt incr prev hashOf e1 e2 st g (hmem g (List.mem_cons_self g files))]
    exact ih (fun x hx => hmem x (List.mem_cons_of_mem g hx)) _

/-- C1: in incremental mode, a supported file whose previous-hash entry
equals its current checksum is counted as skipped (files_skipped is
exactly one higher than the run without it), contributes no nodes, edges
or errors, its checksum is carried forward unchanged into the returned
hash table, and the extractor is never invoked for it (the run's result
is invariant under arbitrary changes of the extractor at that path). -/
theorem incremental_skip_correct
    (prev : List (Str × Str)) (hashOf : Str → Str) (extractOf : Str → ExtractionResult)
    (pre post : List DirEntry) (F : DirEntry) (dirName : Str)
    (hsup : (alookup (toLowerStr (splitextExt F.filename)) SUPPORTED_EXTENSIONS).isNone = false)
    (hprev : dictLookup prev F.relPath = some (hashOf F.path))
    (hpost : ∀ g ∈ post, g.relPath ≠ F.relPath)
    (hpath : ∀ g ∈ pre ++ post, g.path ≠ F.path) :
    (extract_from_directory true (pre ++ F :: post) true prev hashOf extractOf dirName).files_skipped =
      (extract_from_directory true (pre ++ post) true prev hashOf extractOf dirName).files_skipped + 1 ∧
    (extract_from_directory true (pre ++ F :: post) true prev hashOf extractOf dirName).nodes =
      (extract_from_directory true (pre ++ post) true prev hashOf extractOf dirName).nodes ∧
    (extract_from_directory true (pre ++ F :: post) true prev hashOf extractOf dirName).edges =
      (extract_from_directory true (pre ++ post) true prev hashOf extractOf dirName).edges ∧
    (extract_from_directory true (pre ++ F :: post) true prev hashOf extractOf dirName).errors =
      (extract_from_directory true (pre ++ post) true prev hashOf extractOf dirName).errors ∧
    (extract_from_directory true (pre ++ F :: post) true prev hashOf extractOf dirName).files_processed =
      (extract_from_directory true (pre ++ post) true prev hashOf extractOf dirName).files_processed ∧
    dictLookup (extract_from_directory true (pre ++ F :: post) true prev hashOf
        extractOf dirName).file_hashes F.relPath = dictLookup prev F.relPath ∧
    (∀ e2 : Str → ExtractionResult, (∀ q, q ≠ F.path → e2 q = extractOf q) →
      extract_from_directory true (pre ++ F :: post) true prev hashOf e2 dirName =
        extract_from_directory true (pre ++ F :: post) true prev hashOf extractOf dirName) := by
  have hskips : dirSkips true prev hashOf F = true := by
    simp [dirSkips, hprev]
  have hrunL : extract_from_directory true (pre ++ F :: post) true prev hashOf extractOf dirName =
      List.foldl (dirStep true prev hashOf extractOf)
        (dirStep true prev hashOf extractOf
          (List.foldl (dirStep true prev hashOf extractOf) {} pre) F) post := by
    simp [extract_from_directory, List.foldl_append]
  have hrunS : extract_from_directory true (pre ++ post) true prev hashOf extractOf dirName =
      List.foldl (dirStep true prev hashOf extractOf)
        (List.foldl (dirStep true prev hashOf extractOf) {} pre) post := by
    simp [extract_from_directory, List.foldl_append]
  have hstep : dirStep true prev hashOf extractOf
      (List.foldl (dirStep true prev hashOf extractOf) {} pre) F =
      { (List.foldl (dirStep true prev hashOf extractOf) {} pre) with
        files_skipped := (List.foldl (dirStep true prev hashOf extractOf) {} pre).files_skipped + 1,
        file_hashes := dictInsert
          (List.foldl (dirStep true prev hashOf extractOf) {} pre).file_hashes
          F.relPath (hashOf F.path) } :=
    dirStep_skip true prev hashOf extractOf _ F hsup hskips
  have hinv0 : SkipInv F.relPath (hashOf F.path)
      (List.foldl (dirStep true prev hashOf extractOf) {} pre)
      (dirStep true prev hashOf extractOf
        (List.foldl (dirStep true prev hashOf extractOf) {} pre) F) := by
    rw [hstep]
    refine ⟨rfl, rfl, rfl, rfl, rfl, ?_, ?_⟩
    · intro k hk
      exact dictLookup_insert_ne _ _ _ _ hk
    · exact dictLookup_insert_self _ _ _
  have hinv := dirRun_skipInv F.relPath (hashOf F.path) true prev hashOf extractOf
    post hpost _ _ hinv0
  rw [hrunL, hrunS]
  obtain ⟨hn, he, herr2, hp, hs, _, hfk⟩ := hinv
  refine ⟨hs, hn, he, herr2, hp, ?_, ?_⟩
  · rw [hprev]
    exact hfk
  · intro e2 hagree
    have hpre2 : ∀ g ∈ pre, e2 g.path = extractOf g.path := fun g hg =>
      hagree g.path (hpath g (List.mem_append_left post hg))
    have hpost2 : ∀ g ∈ post, e2 g.path = extractOf g.path := fun g hg =>
      hagree g.path (hpath g (List.mem_append_right pre hg))
    have hL2 : extract_from_directory true (pre ++ F :: post) true prev hashOf e2 dirName =
        List.foldl (dirStep true prev hashOf e2)
          (dirStep true prev hashOf e2
            (List.foldl (dirStep true prev hashOf e2) {} pre) F) post := by
      simp [extract_from_directory, List.foldl_append]
    rw [hL2]
    rw [dirRun_congr true prev hashOf e2 extractOf pre hpre2 {}]
    rw [dirStep_skip true prev hashOf e2 _ F hsup hskips,
        dirStep_skip true prev hashOf extractOf _ F hsup hskips]
    exact dirRun_congr true prev hashOf e2 extractOf post hpost2 _

/-- C10: a walked file whose extraction result carries errors
contributes no nodes and no edges to the aggregate, is counted in
neither files_processed nor files_skipped, gets no entry in the returned
hash table, and a subsequent incremental run using that table does not
skip it (its skip condition is false), so it is extracted again. -/
theorem failed_file_contributes_nothing
    (incr : Bool) (prev : List (Str × Str)) (hashOf : Str → Str)
    (extractOf : Str → ExtractionResult)
    (pre post : List DirEntry) (F : DirEntry) (dirName : Str)
    (hsup : (alookup (toLowerStr (splitextExt F.filename)) SUPPORTED_EXTENSIONS).isNone = false)
    (hskip : dirSkips incr prev hashOf F = false)
    (herr : (extractOf F.path).errors ≠ [])
    (hrel : ∀ g ∈ pre ++ post, g.relPath ≠ F.relPath) :
    (extract_from_directory true (pre ++ F :: post) incr prev hashOf extractOf dirName).nodes =
      (extract_from_directory true (pre ++ post) incr prev hashOf extractOf dirName).nodes ∧
    (extract_from_directory true (pre ++ F :: post) incr prev hashOf extractOf dirName).edges =
      (extract_from_directory true (pre ++ post) incr prev hashOf extractOf dirName).edges ∧
    (extract_from_directory true (pre ++ F :: post) incr prev hashOf extractOf dirName).files_processed =
      (extract_from_directory true (pre ++ post) incr prev hashOf extractOf dirName).files_processed ∧
    (extract_from_directory true (pre ++ F :: post) incr prev hashOf extractOf dirName).files_skipped =
      (extract_from_directory true (pre ++ post) incr prev hashOf extractOf dirName).files_skipped ∧
    dictLookup (extract_from_directory true (pre ++ F :: post) incr prev hashOf
        extractOf dirName).file_hashes F.relPath = none ∧
    dirSkips true (extract_from_directory true (pre ++ F :: post) incr prev hashOf
        extractOf dirName).file_hashes hashOf F = false := by
  have hpre : ∀ g ∈ pre, g.relPath ≠ F.relPath := fun g hg =>
    hrel g (List.mem_append_left post hg)
  have hpost : ∀ g ∈ post, g.relPath ≠ F.relPath := fun g hg =>
    hrel g (List.mem_append_right pre hg)
  have hrunL : extract_from_directory true (pre ++ F :: post) incr prev hashOf extractOf dirName =
      List.foldl (dirStep incr prev hashOf extractOf)
        (dirStep incr prev hashOf extractOf
          (List.foldl (dirStep incr prev hashOf extractOf) {} pre) F) post := by
    simp [extract_from_directory, List.foldl_append]
  have hrunS : extract_from_directory true (pre ++ post) incr prev hashOf extractOf dirName =
      List.foldl (dirStep incr prev hashOf extractOf)
        (List.foldl (dirStep incr prev hashOf extractOf) {} pre) post := by
    simp [extract_from_directory, List.foldl_append]
  have hstep : dirStep incr prev hashOf extractOf
      (List.foldl (dirStep incr prev hashOf extractOf) {} pre) F =
      { (List.foldl (dirStep incr prev hashOf extractOf) {} pre) with
        errors := (List.foldl (dirStep incr prev hashOf extractOf) {} pre).errors
          ++ (extractOf F.path).errors } :=
    dirStep_err incr prev hashOf extractOf _ F hsup hskip herr
  have hinv0 : DropInv (List.foldl (dirStep incr prev hashOf extractOf) {} pre)
      (dirStep incr prev hashOf extractOf
        (List.foldl (dirStep incr prev hashOf extractOf) {} pre) F) := by
    rw [hstep]
    exact ⟨rfl, rfl, rfl, rfl, rfl⟩
  have hinv := dirRun_dropInv incr prev hashOf extractOf post _ _ hinv0
  obtain ⟨hn, he, hp, hs, _⟩ := hinv
  have hlk : dictLookup (extract_from_directory true (pre ++ F :: post) incr prev hashOf
      extractOf dirName).file_hashes F.relPath = none := by
    rw [hrunL]
    rw [dirRun_hashes_other incr prev hashOf extractOf F.relPath post hpost]
    rw [hstep]
    show dictLookup (List.foldl (dirStep incr prev hashOf extractOf) {} pre).file_hashes
      F.relPath = none
    rw [dirRun_hashes_other incr prev hashOf extractOf F.relPath pre hpre]
    rfl
  refine ⟨?_, ?_, ?_, ?_, hlk, ?_⟩
  · rw [hrunL, hrunS]; exact hn
  · rw [hrunL, hrunS]; exact he
  · rw [hrunL, hrunS]; exact hp
  · rw [hrunL, hrunS]; exact hs
  · simp [dirSkips, hlk]

theorem incremental_skip_correct_witness :
    (extract_from_directory true
        ([] ++ (⟨"a.java".data, "a.java".data, "r/a.java".data⟩ : DirEntry) :: [])
        true [("a.java".data, "h".data)] (fun _ => "h".data) (fun _ => {})
        "d".data).files_skipped =
      (extract_from_directory true ([] ++ []) true [("a.java".data, "h".data)]
        (fun _ => "h".data) (fun _ => {}) "d".data).files_skipped + 1 :=
  (incremental_skip_correct [("a.java".data, "h".data)] (fun _ => "h".data) (fun _ => {})
    [] [] ⟨"a.java".data, "a.java".data, "r/a.java".data⟩ "d".data
    (by decide) (by decide) (by decide) (by decide)).1

theorem failed_file_contributes_nothing_witness :
    (extract_from_directory true
        ([] ++ (⟨"a.java".data, "a.java".data, "r/a.java".data⟩ : DirEntry) :: [])
        true [] (fun _ => "h".data) (fun _ => { errors := ["e".data] }) "d".data).nodes =
      (extract_from_directory true ([] ++ []) true [] (fun _ => "h".data)
        (fun _ => { errors := ["e".data] }) "d".data).nodes :=
  (failed_file_contributes_nothing true [] (fun _ => "h".data)
    (fun _ => { errors := ["e".data] }) [] []
    ⟨"a.java".data, "a.java".data, "r/a.java".data⟩ "d".data
    (by decide) (by decide) (by decide) (by decide)).1
